import Mathlib

/-!
Verification development for the `merges` chunk-orchestration tool.

The Rust sources are shallowly embedded:
* pure functions (`split.rs` grouping, `git.rs` message formatting,
  `state.rs` (de)serialisation) become Lean functions over
  `String` / `List Char` / a small `Json` value type;
* the stateful commands (`split.rs::apply_plan`, `commands/add.rs`,
  `commands/move.rs`, `commands/sync.rs`) become explicit state-passing
  functions over a `GitState` record that models the git facts these
  commands depend on (which branches exist, which branch is checked out,
  which branches have worktrees) together with a trace of the mutating
  git commands that were issued.  File *content* is not modelled; the
  commands' success/failure conditions on branches are.
-/

namespace Merges

/-! ## Data model (src/state.rs) -/

/-- Rebase strategy, from `state.rs` (`#[serde(rename_all = "snake_case")]`). -/
inductive Strategy where
  | stacked
  | independent
deriving DecidableEq, Repr

/-- One chunk, from `state.rs::Chunk`.  The two PR fields are `Option` and
are skipped during serialisation when `None`. -/
structure Chunk where
  name : String
  branch : String
  files : List String
  pr_number : Option Nat := none
  pr_url : Option String := none
deriving DecidableEq, Repr, Inhabited

/-- Persisted state, from `state.rs::MergesState`.

The field `use_worktrees` is Modelled from the spec: the copy of
`state.rs` in the sources omits the field declaration, but every caller
(`split.rs`, `commands/sync.rs`, `commands/add.rs`, `doctor.rs`) reads
`state.use_worktrees`, and `tests/worktrees.rs` asserts that it
round-trips and defaults to `false` when absent from the JSON
(`#[serde(default)]` semantics). -/
structure MergesState where
  base_branch : String
  source_branch : String
  repo_owner : String
  repo_name : String
  strategy : Strategy
  use_worktrees : Bool := false
  chunks : List Chunk
deriving DecidableEq, Repr

/-! ## Grouping planner (src/split.rs) -/

/-- Plan entry, from `split.rs::ChunkPlan`. -/
structure ChunkPlan where
  name : String
  files : List String
deriving DecidableEq, Repr

/-- Split a character list at `/` separators. -/
def splitSegsAux : List Char → List (List Char)
  | [] => [[]]
  | c :: cs =>
    if c = '/' then [] :: splitSegsAux cs
    else
      match splitSegsAux cs with
      | [] => [[c]]
      | s :: ss => (c :: s) :: ss

/-- Path components of a relative path, as produced by Rust's
`Path::components()` filtered to `Component::Normal`: split on `/`,
dropping empty segments and `.` segments (the normalisation
`Path::components` performs on ordinary relative paths). -/
def components (f : String) : List String :=
  ((splitSegsAux f.data).map (fun s => String.mk s)).filter
    (fun s => s ≠ "" ∧ s ≠ ".")

/-- From `split.rs::top_dir`: the first path component, or `"root"` for
files with no parent directory (single-component paths). -/
def top_dir (f : String) : String :=
  match components f with
  | d :: _ :: _ => d
  | _ => "root"

/-- From `split.rs::grouping_key`:
1-component paths map to `"root"`; 2-component paths always map to the
directory; 3+-component paths map to the sub-directory when
`use_second_level` is set, otherwise to the directory. -/
def grouping_key (f : String) (use_second_level : Bool) : String :=
  match components f with
  | [] => "root"
  | [_] => "root"
  | [dir, _file] => dir
  | dir :: subdir :: _ :: _ => if use_second_level then subdir else dir

/-- From `split.rs::auto_group_files`: true when exactly one distinct
non-root top-level directory occurs among the files (the Rust builds a
`HashSet` of the top dirs; `dedup` models its distinct elements). -/
def useSecondLevel (files : List String) : Bool :=
  (((files.map top_dir).dedup).filter (fun d => d ≠ "root")).length == 1

/-- Insert a string into a list, keeping lexicographic (byte-wise, like
Rust `String` ordering) order. -/
def insertStr (s : String) : List String → List String
  | [] => [s]
  | t :: ts => if s.data ≤ t.data then s :: t :: ts else t :: insertStr s ts

/-- Insertion sort on strings, modelling `Vec::sort` (any sort of
strings produces the same, unique sorted arrangement). -/
def sortStrings : List String → List String
  | [] => []
  | s :: ss => insertStr s (sortStrings ss)

/-- From `split.rs::auto_group_files`.  Groups files by `grouping_key`
(into a `BTreeMap`, hence keys are emitted in sorted order), sorting each
group's file list; returns `[]` for empty input. -/
def auto_group_files (files : List String) : List ChunkPlan :=
  if files.isEmpty then []
  else
    let useSecond := useSecondLevel files
    let keys := sortStrings ((files.map (fun f => grouping_key f useSecond)).dedup)
    keys.map (fun k =>
      { name := k
        files := sortStrings
          (files.filter (fun f => grouping_key f useSecond == k)) })

/-! ## Ticket-code extraction (src/git.rs) -/

/-- The part of a branch name after the last `/`
(`branch.rsplit('/').next()` in `git.rs`). -/
def lastSegment (branch : List Char) : List Char :=
  (branch.reverse.takeWhile (fun c => c ≠ '/')).reverse

/-- The character-consuming loop of `git.rs::ticket_prefix`, applied to
the name it operates on: peel ASCII uppercase letters (`takeWhile`),
require the next character to be `-`, peel ASCII digits, and require the
following character to be end-of-input, `-`, or `/`. -/
def ticketFromName (name : List Char) : Option (List Char) :=
  let letters := name.takeWhile (fun c => c.isUpper)
  let rest0 := name.dropWhile (fun c => c.isUpper)
  if letters.isEmpty then none
  else if rest0.head? ≠ some '-' then none
  else
    let rest := rest0.tail
    let digits := rest.takeWhile (fun c => c.isDigit)
    let rest2 := rest.dropWhile (fun c => c.isDigit)
    if digits.isEmpty then none
    else if rest2.head? = none ∨ rest2.head? = some '-' ∨ rest2.head? = some '/'
    then some (letters ++ '-' :: digits)
    else none

/-- Translates `git.rs::ticket_prefix` (renamed here): extract a
Jira-style ticket code from the final `/`-separated segment of a branch
name. -/
def ticketCode (branch : List Char) : Option (List Char) :=
  ticketFromName (lastSegment branch)

/-- From `git.rs::commit_message`: prepend the ticket code when found. -/
def commit_message (source_branch body : List Char) : List Char :=
  match ticketCode source_branch with
  | some t => t ++ ' ' :: body
  | none => body

/-- From `git.rs::pr_title`: identical to `commit_message`. -/
def pr_title (source_branch body : List Char) : List Char :=
  commit_message source_branch body

/-- Declarative reading of the spec sentence, adapted to the code's
last-segment behaviour: `seg` decomposes as a nonempty run of uppercase
letters, a `-`, a nonempty run of digits, and a remainder that is empty
or starts with `-` or `/`; `t` is the letters-dash-digits part. -/
def ticketDecomp (seg t : List Char) : Prop :=
  ∃ A D rest, seg = A ++ '-' :: (D ++ rest) ∧ A ≠ [] ∧
    (∀ c ∈ A, c.isUpper = true) ∧ D ≠ [] ∧
    (∀ c ∈ D, c.isDigit = true) ∧
    (rest = [] ∨ (∃ r, rest = '-' :: r) ∨ (∃ r, rest = '/' :: r)) ∧
    t = A ++ '-' :: D

/-- Written from the spec's words for the claim about message prefixes:
the branch name itself (not just its last segment) begins with a
nonempty run of uppercase letters followed by `-` and a nonempty run of
digits. -/
def specBeginsWithTicket (branch : List Char) : Prop :=
  ∃ A D rest, branch = A ++ '-' :: (D ++ rest) ∧ A ≠ [] ∧
    (∀ c ∈ A, c.isUpper = true) ∧ D ≠ [] ∧ (∀ c ∈ D, c.isDigit = true)

/-! ## JSON persistence (src/state.rs, serde_json semantics)

`MergesState::load` parses `.merges.json` with `serde_json::from_str`;
`MergesState::save` writes `serde_json::to_string_pretty` output with
`std::fs::write`.  The text-to-value step is serde_json's; we embed the
value level as a small `Json` type, the derived `Deserialize` field
semantics as `fromJson?` functions, and serde_json's `PrettyFormatter`
(two-space indent, `": "` separators, no trailing newline) as
`prettyPrint`. -/

/-- JSON values (the fragment the state file uses). -/
inductive Json where
  | str (s : String)
  | num (n : Nat)
  | bool (b : Bool)
  | arr (xs : List Json)
  | obj (fields : List (String × Json))
deriving Repr

deriving instance DecidableEq for Except

/-- Look up an object field by key. -/
def getField (fields : List (String × Json)) (k : String) : Option Json :=
  (fields.find? (fun p => p.1 == k)).map (fun p => p.2)

/-- Serde semantics for a required string field. -/
def reqStr (fields : List (String × Json)) (k : String) : Except String String :=
  match getField fields k with
  | some (.str s) => .ok s
  | _ => .error ("missing field `" ++ k ++ "`")

/-- Serde semantics for an optional (`Option`-typed) field: absent means
`none`, wrong type is an error. -/
def optNat (fields : List (String × Json)) (k : String) : Except String (Option Nat) :=
  match getField fields k with
  | none => .ok none
  | some (.num n) => .ok (some n)
  | some _ => .error ("invalid type for `" ++ k ++ "`")

/-- Serde semantics for an optional string field. -/
def optStr (fields : List (String × Json)) (k : String) : Except String (Option String) :=
  match getField fields k with
  | none => .ok none
  | some (.str s) => .ok (some s)
  | some _ => .error ("invalid type for `" ++ k ++ "`")

/-- Serde semantics for a `#[serde(default)] bool` field: absent means
`false`. -/
def defaultBool (fields : List (String × Json)) (k : String) : Except String Bool :=
  match getField fields k with
  | none => .ok false
  | some (.bool b) => .ok b
  | some _ => .error ("invalid type for `" ++ k ++ "`")

/-- Deserialise a `Strategy` (snake_case string). -/
def Strategy.fromJson? (j : Json) : Except String Strategy :=
  match j with
  | .str "stacked" => .ok .stacked
  | .str "independent" => .ok .independent
  | _ => .error "unknown variant for `strategy`"

/-- Deserialise a `Chunk` per the derived serde impl: `name`, `branch`,
`files` required; `pr_number`, `pr_url` optional. -/
def Chunk.fromJson? (j : Json) : Except String Chunk :=
  match j with
  | .obj fields => do
    let name ← reqStr fields "name"
    let branch ← reqStr fields "branch"
    let files ←
      match getField fields "files" with
      | some (.arr xs) =>
        xs.mapM (fun x => match x with
          | .str s => Except.ok s
          | _ => Except.error "invalid type in `files`")
      | _ => .error "missing field `files`"
    let prn ← optNat fields "pr_number"
    let pru ← optStr fields "pr_url"
    .ok { name := name, branch := branch, files := files,
          pr_number := prn, pr_url := pru }
  | _ => .error "expected object for `Chunk`"

/-- Deserialise a `MergesState` per the derived serde impl.  The
`use_worktrees` handling is Modelled from the spec: optional, defaulting
to `false` for backward compatibility (the field declaration is absent
from the copied `state.rs`; `tests/worktrees.rs` pins this behaviour). -/
def MergesState.fromJson? (j : Json) : Except String MergesState :=
  match j with
  | .obj fields => do
    let base ← reqStr fields "base_branch"
    let source ← reqStr fields "source_branch"
    let owner ← reqStr fields "repo_owner"
    let repo ← reqStr fields "repo_name"
    let strategy ←
      match getField fields "strategy" with
      | some s => Strategy.fromJson? s
      | none => .error "missing field `strategy`"
    let wt ← defaultBool fields "use_worktrees"
    let chunks ←
      match getField fields "chunks" with
      | some (.arr xs) => xs.mapM Chunk.fromJson?
      | _ => .error "missing field `chunks`"
    .ok { base_branch := base, source_branch := source, repo_owner := owner,
          repo_name := repo, strategy := strategy, use_worktrees := wt,
          chunks := chunks }
  | _ => .error "expected object for `MergesState`"

/-- Serialise a `Strategy`. -/
def Strategy.toJson : Strategy → Json
  | .stacked => .str "stacked"
  | .independent => .str "independent"

/-- Serialise a `Chunk`; the PR fields carry
`#[serde(skip_serializing_if = "Option::is_none")]`. -/
def Chunk.toJson (c : Chunk) : Json :=
  .obj ([("name", .str c.name), ("branch", .str c.branch),
         ("files", .arr (c.files.map .str))]
    ++ (match c.pr_number with | some n => [("pr_number", Json.num n)] | none => [])
    ++ (match c.pr_url with | some u => [("pr_url", Json.str u)] | none => []))

/-- Serialise a `MergesState` in struct field order. -/
def MergesState.toJson (st : MergesState) : Json :=
  .obj [("base_branch", .str st.base_branch),
        ("source_branch", .str st.source_branch),
        ("repo_owner", .str st.repo_owner),
        ("repo_name", .str st.repo_name),
        ("strategy", st.strategy.toJson),
        ("use_worktrees", .bool st.use_worktrees),
        ("chunks", .arr (st.chunks.map Chunk.toJson))]

/-- Indentation: `n` spaces. -/
def indentSpaces (n : Nat) : String :=
  String.mk (List.replicate n ' ')

mutual

/-- serde_json `PrettyFormatter` output for a value whose surrounding
indentation is `ind` spaces.  Two-space indent steps, `": "` after keys,
empty arrays/objects printed inline, and no trailing newline. -/
def prettyPrint : Json → Nat → String
  | .str s, _ => "\"" ++ s ++ "\""
  | .num n, _ => toString n
  | .bool b, _ => if b then "true" else "false"
  | .arr [], _ => "[]"
  | .arr (x :: xs), ind =>
    "[\n" ++ prettyArr (x :: xs) (ind + 2) ++ "\n" ++ indentSpaces ind ++ "]"
  | .obj [], _ => "\x7b\x7d"
  | .obj (f :: fs), ind =>
    "\x7b\n" ++ prettyObj (f :: fs) (ind + 2) ++ "\n" ++ indentSpaces ind ++ "\x7d"

/-- Array elements, one per line. -/
def prettyArr : List Json → Nat → String
  | [], _ => ""
  | [x], ind => indentSpaces ind ++ prettyPrint x ind
  | x :: y :: xs, ind =>
    indentSpaces ind ++ prettyPrint x ind ++ ",\n" ++ prettyArr (y :: xs) ind

/-- Object fields, one per line. -/
def prettyObj : List (String × Json) → Nat → String
  | [], _ => ""
  | [(k, v)], ind => indentSpaces ind ++ "\"" ++ k ++ "\": " ++ prettyPrint v ind
  | (k, v) :: f :: fs, ind =>
    indentSpaces ind ++ "\"" ++ k ++ "\": " ++ prettyPrint v ind ++ ",\n"
      ++ prettyObj (f :: fs) ind

end

/-- The exact bytes `MergesState::save` writes (`to_string_pretty`
followed by `fs::write`, which appends nothing). -/
def MergesState.saveContent (st : MergesState) : String :=
  prettyPrint st.toJson 0

/-! ## Repository adapter model (src/git.rs)

The commands shell out to git.  We model the git facts they branch on:
the set of local branches, the branch checked out in the shared working
tree, and the set of branches that have a worktree.  Every mutating git
invocation is also recorded in a trace, so "no git command ran" is
expressible.  Content-level effects (file copies, commit payloads,
rebased tips) are not modelled; the commands' success and failure
conditions on branch existence are. -/

/-- One mutating git invocation. -/
inductive GitOp where
  | createBranch (name base : String)
  | checkout (branch : String)
  | addWorktree (branch base : String)
  | removeWorktree (branch : String)
  | deleteBranch (branch : String)
  | checkoutFilesFrom (source : String) (files : List String)
  | commitAll (msg : String)
  | resetSoft
  | resetFile (file : String)
  | discardFile (file : String)
  | commitEmptyAfterMove
  | commitRemaining
  | stageAll
  | amendCommit
  | fetchRebase (branch : String)
deriving DecidableEq, Repr

/-- Modelled git repository facts. -/
structure GitState where
  branches : List String
  current : String
  worktrees : List String
  trace : List GitOp := []
deriving DecidableEq, Repr

/-- From `git.rs::create_branch` (`git checkout -b name baseRef`): fails
when the branch already exists, otherwise creates it and checks it out. -/
def createBranch (g : GitState) (name base : String) : Except String GitState :=
  if name ∈ g.branches then
    .error ("Failed to create branch '" ++ name ++ "'")
  else
    .ok { g with branches := name :: g.branches, current := name,
                 trace := g.trace ++ [.createBranch name base] }

/-- From `git.rs::checkout`: fails when the branch does not exist. -/
def checkout (g : GitState) (branch : String) : Except String GitState :=
  if branch ∈ g.branches then
    .ok { g with current := branch, trace := g.trace ++ [.checkout branch] }
  else
    .error ("Failed to checkout branch '" ++ branch ++ "'")

/-- From `git.rs::add_worktree` (`git worktree add -b branch path base`):
fails when the branch already exists; the shared tree's checkout is
untouched. -/
def addWorktree (g : GitState) (branch base : String) : Except String GitState :=
  if branch ∈ g.branches then
    .error ("Failed to create worktree for branch '" ++ branch ++ "'")
  else
    .ok { g with branches := branch :: g.branches,
                 worktrees := branch :: g.worktrees,
                 trace := g.trace ++ [.addWorktree branch base] }

/-- From `git.rs::remove_worktree`: returns `Ok` without running git when
the worktree path does not exist, otherwise force-removes it. -/
def removeWorktree (g : GitState) (branch : String) : Except String GitState :=
  if branch ∈ g.worktrees then
    .ok { g with worktrees := g.worktrees.erase branch,
                 trace := g.trace ++ [.removeWorktree branch] }
  else
    .ok g

/-- From `git.rs::delete_branch` (`git branch -D`): fails when the branch
does not exist or is checked out (in the shared tree or a worktree). -/
def deleteBranch (g : GitState) (branch : String) : Except String GitState :=
  if branch ∈ g.branches ∧ branch ≠ g.current ∧ branch ∉ g.worktrees then
    .ok { g with branches := g.branches.erase branch,
                 trace := g.trace ++ [.deleteBranch branch] }
  else
    .error ("git branch -D failed: '" ++ branch ++ "'")

/-- From `git.rs::checkout_files_from`: no-op (no git invocation) for an
empty file list; otherwise `git checkout source -- files`, which fails
when `source` is not a known ref. -/
def checkoutFilesFrom (g : GitState) (source : String) (files : List String) :
    Except String GitState :=
  if files.isEmpty then .ok g
  else if source ∈ g.branches then
    .ok { g with trace := g.trace ++ [.checkoutFilesFrom source files] }
  else
    .error ("Failed to checkout files from '" ++ source ++ "'")

/-- From `git.rs::commit_all`: `git add -A && git commit -m msg`, which
fails with "nothing to commit" on a clean tree.  The caller passes
whether the tree is dirty (in `apply_plan` the tree is dirty exactly
when files from the validated diff were just copied in, i.e. when the
chunk's file list is nonempty). -/
def commitAll (g : GitState) (msg : String) (hasChanges : Bool) :
    Except String GitState :=
  if hasChanges then
    .ok { g with trace := g.trace ++ [.commitAll msg] }
  else
    .error "git commit failed: nothing to commit, working tree clean"

/-- Best-effort execution of a git step (`let _ = ...` in the Rust
rollback): keep the new state on success, keep the old one on failure. -/
def bestEffort (g : GitState) (r : Except String GitState) : GitState :=
  match r with
  | .ok g' => g'
  | .error _ => g

/-! ## Plan materializer (src/split.rs::apply_plan) -/

/-- Lower-case the name and replace spaces with dashes
(`name.to_lowercase().replace(' ', "-")`), character by character. -/
def slugify (name : String) : String :=
  String.mk (name.data.map (fun c =>
    let lc := c.toLower
    if lc = ' ' then '-' else lc))

/-- The commit message `apply_plan` builds for one chunk:
`feat(slug): chunk n - name` followed by the file list. -/
def chunkCommitMsg (slug : String) (n : Nat) (name : String)
    (files : List String) : String :=
  "feat(" ++ slug ++ "): chunk " ++ toString n ++ " - " ++ name
    ++ "\n\nFiles:\n" ++ String.intercalate "\n" files

/-- First file in the plan that is not in the diff against base
(the validation loop in `apply_plan`). -/
def firstInvalidFile (changed : List String) (plan : List ChunkPlan) :
    Option String :=
  plan.findSome? (fun c => c.files.find? (fun f => !(changed.contains f)))

/-- The branch name `apply_plan` derives for the chunk with ordinal `n`:
`<source>-chunk-<n>-<slug(name)>`. -/
def chunkBranchName (source : String) (n : Nat) (name : String) : String :=
  source ++ "-chunk-" ++ toString n ++ "-" ++ slugify name

/-- The per-chunk creation step of `apply_plan`: `add_worktree` in
worktree mode, `create_branch` in the shared tree. -/
def createStep (useWT : Bool) (g : GitState) (branch baseSha : String) :
    Except String GitState :=
  if useWT then addWorktree g branch baseSha else createBranch g branch baseSha

/-- The per-chunk restore step of `apply_plan`: in classic (shared-tree)
mode, return to the source branch after each chunk. -/
def restoreStep (useWT : Bool) (g : GitState) (source : String) :
    Except String GitState :=
  if useWT then .ok g else checkout g source

/-- The per-chunk loop of `apply_plan`: for each plan entry create a
branch (or worktree) at the merge-base, record it in `created`, copy the
entry's files from the source branch, commit, and in shared-tree mode
check the source branch out again.  Returns the loop's result, the git
state reached, and the branches created so far (the rollback list). -/
def applyChunks (useWT : Bool) (source baseSha : String) :
    List ChunkPlan → Nat → GitState → List String → List Chunk →
    Except String (List Chunk) × GitState × List String
  | [], _, g, created, acc => (.ok acc, g, created)
  | cp :: rest, n, g, created, acc =>
    match createStep useWT g (chunkBranchName source n cp.name) baseSha with
    | .error e => (.error e, g, created)
    | .ok g1 =>
      match checkoutFilesFrom g1 source cp.files with
      | .error e => (.error e, g1, created ++ [chunkBranchName source n cp.name])
      | .ok g2 =>
        match commitAll g2 (chunkCommitMsg (slugify cp.name) n cp.name cp.files)
            (!cp.files.isEmpty) with
        | .error e => (.error e, g2, created ++ [chunkBranchName source n cp.name])
        | .ok g3 =>
          match restoreStep useWT g3 source with
          | .error e =>
            (.error e, g3, created ++ [chunkBranchName source n cp.name])
          | .ok g4 =>
            applyChunks useWT source baseSha rest (n + 1) g4
              (created ++ [chunkBranchName source n cp.name])
              (acc ++ [{ name := cp.name,
                         branch := chunkBranchName source n cp.name,
                         files := cp.files }])

/-- One iteration of the rollback loop of `apply_plan`: remove the
worktree (worktree mode) and force-delete the branch, each ignoring
failures (`let _ = ...` in the Rust). -/
def rollbackStep (useWT : Bool) (gacc : GitState) (b : String) : GitState :=
  let g1 := if useWT then bestEffort gacc (removeWorktree gacc b) else gacc
  bestEffort g1 (deleteBranch g1 b)

/-- The rollback arm of `apply_plan`: best-effort checkout of the source
branch (shared-tree mode only), then for every created branch remove its
worktree (worktree mode) and force-delete it, ignoring failures. -/
def rollbackCreated (useWT : Bool) (source : String) (created : List String)
    (g : GitState) : GitState :=
  let g0 := if useWT then g else bestEffort g (checkout g source)
  created.foldl (rollbackStep useWT) g0

/-- From `split.rs::apply_plan`.  `changed` abstracts the result of
`git::changed_files(root, base_branch)` and `baseSha` the result of
`git::merge_base` (both read-only queries).  Returns the call's result,
the git state after the call, and the persisted state file's content
after the call (`state.save` runs only in the success arm; the
`ensure_gitignored` side effect touches only `.git/info/exclude` and is
outside this model). -/
def apply_plan (changed : List String) (baseSha : String) (st : MergesState)
    (plan : List ChunkPlan) (g : GitState) :
    Except String Unit × GitState × MergesState :=
  if plan.isEmpty then
    (.error "Chunk plan is empty — provide at least one chunk with files.",
     g, st)
  else
    match firstInvalidFile changed plan with
    | some f =>
      (.error ("File '" ++ f ++ "' is not in the diff"), g, st)
    | none =>
      match applyChunks st.use_worktrees st.source_branch baseSha plan
          (st.chunks.length + 1) g [] [] with
      | (.ok newChunks, g', _) =>
        (.ok (), g', { st with chunks := st.chunks ++ newChunks })
      | (.error e, g', created) =>
        (.error e, rollbackCreated st.use_worktrees st.source_branch created g',
         st)

/-! ## Chunk mutator: add (src/commands/add.rs) -/

/-- Replace the element at index `i` (like indexing into a `Vec`);
out-of-range indices leave the list unchanged. -/
def modifyIdx (l : List Chunk) (i : Nat) (f : Chunk → Chunk) : List Chunk :=
  match l, i with
  | [], _ => []
  | c :: rest, 0 => f c :: rest
  | c :: rest, j + 1 => c :: modifyIdx rest j f

/-- From `commands/add.rs::run`.  Looks the chunk up by name, validates
the files against the diff, drops files already in the chunk, no-ops if
nothing new remains, otherwise enters the chunk's working context
(checkout in classic mode), copies the new files in, stages and amends,
restores the source branch (classic mode), and appends the new files to
the chunk's list before saving. -/
def add_run (changed : List String) (st : MergesState) (chunkName : String)
    (files : List String) (g : GitState) :
    Except String Unit × GitState × MergesState :=
  match st.chunks.findIdx? (fun c => c.name == chunkName) with
  | none => (.error ("No chunk named '" ++ chunkName ++ "'"), g, st)
  | some i =>
    if files.isEmpty then (.error "No files provided.", g, st)
    else
      match files.find? (fun f => !(changed.contains f)) with
      | some f =>
        (.error ("File '" ++ f ++ "' is not in the diff"), g, st)
      | none =>
        let chunk := st.chunks.getD i default
        let newFiles := files.filter (fun f => !(chunk.files.contains f))
        if newFiles.isEmpty then (.ok (), g, st)
        else
          match (if st.use_worktrees then Except.ok g
                 else checkout g chunk.branch) with
          | .error e => (.error e, g, st)
          | .ok g1 =>
            let inner : Except String Unit × GitState :=
              match checkoutFilesFrom g1 st.source_branch newFiles with
              | .error e => (.error e, g1)
              | .ok g2 =>
                (.ok (), { g2 with trace := g2.trace ++ [.stageAll, .amendCommit] })
            match (if st.use_worktrees then Except.ok inner.2
                   else checkout inner.2 st.source_branch) with
            | .error e => (.error e, inner.2, st)
            | .ok g3 =>
              match inner.1 with
              | .error e => (.error e, g3, st)
              | .ok () =>
                let addNew := fun (c : Chunk) => { c with files := c.files ++ newFiles }
                (.ok (), g3, { st with chunks := modifyIdx st.chunks i addNew })

/-! ## Chunk mutator: move (src/commands/move.rs) -/

/-- From `move.rs::remove_file_from_branch`: soft-reset the tip, unstage
and discard the file, then commit what remains (an empty marker commit if
nothing is left).  These content-level commands always succeed in this
model; only their trace is recorded. -/
def removeFileFromBranch (g : GitState) (file : String) : GitState :=
  { g with trace := g.trace ++ [.resetSoft, .resetFile file, .discardFile file,
                                .commitRemaining] }

/-- From `move.rs::amend_commit`: stage everything and amend. -/
def amendCommitStep (g : GitState) : GitState :=
  { g with trace := g.trace ++ [.stageAll, .amendCommit] }

/-- From `commands/move.rs::run`.  Validates the source chunk, the file's
membership, and the destination chunk (all before any git mutation),
then removes the file from the source chunk's branch, adds it to the
destination branch if absent, updates the chunk lists, restores the
source branch, and saves. -/
def move_run (st : MergesState) (file fromChunk toChunk : String)
    (g : GitState) : Except String Unit × GitState × MergesState :=
  match st.chunks.findIdx? (fun c => c.name == fromChunk) with
  | none => (.error ("No chunk named '" ++ fromChunk ++ "'"), g, st)
  | some fi =>
    if file ∉ (st.chunks.getD fi default).files then
      (.error ("File '" ++ file ++ "' is not in chunk '" ++ fromChunk ++ "'"),
       g, st)
    else
      match st.chunks.findIdx? (fun c => c.name == toChunk) with
      | none => (.error ("No chunk named '" ++ toChunk ++ "'"), g, st)
      | some ti =>
        let fromBranch := (st.chunks.getD fi default).branch
        let toBranch := (st.chunks.getD ti default).branch
        match checkout g fromBranch with
        | .error e => (.error e, g, st)
        | .ok g1 =>
          let g2 := removeFileFromBranch g1 file
          match checkout g2 toBranch with
          | .error e => (.error e, g2, st)
          | .ok g3 =>
            match (if (st.chunks.getD ti default).files.contains file then
                     Except.ok g3
                   else
                     match checkoutFilesFrom g3 st.source_branch [file] with
                     | .error e => Except.error e
                     | .ok g3' => Except.ok (amendCommitStep g3')) with
            | .error e => (.error e, g3, st)
            | .ok g4 =>
              let chunks1 := modifyIdx st.chunks fi
                (fun c => { c with files := c.files.filter (fun f => f ≠ file) })
              let chunks2 :=
                if (chunks1.getD ti default).files.contains file then chunks1
                else modifyIdx chunks1 ti
                  (fun c => { c with files := c.files ++ [file] })
              match checkout g4 st.source_branch with
              | .error e => (.error e, g4, st)
              | .ok g5 => (.ok (), g5, { st with chunks := chunks2 })

/-! ## Sync engine (src/commands/sync.rs) -/

/-- The sequential (shared-tree) per-chunk loop: check each chunk branch
out and fetch+rebase it, propagating the first failure.  `rebaseOk`
abstracts whether the rebase of a branch succeeds (conflicts make it
fail). -/
def seqSync (rebaseOk : String → Bool) :
    List Chunk → GitState → Except String Unit × GitState
  | [], g => (.ok (), g)
  | c :: rest, g =>
    match checkout g c.branch with
    | .error e => (.error e, g)
    | .ok g1 =>
      if rebaseOk c.branch then
        seqSync rebaseOk rest
          { g1 with trace := g1.trace ++ [.fetchRebase c.branch] }
      else
        (.error ("Rebase onto origin failed for '" ++ c.branch ++ "'"), g1)

/-- From `commands/sync.rs::run`.  With worktrees, one rebase per chunk
runs in its own worktree (concurrently in Rust; join-all, errors
collected — the set of failures, and hence the overall outcome, is
deterministic and is what we model).  In classic mode the chunks are
rebased sequentially in the shared tree and the initially current branch
is checked out again at the end.  No arm ever writes the state file. -/
def sync_run (st : MergesState) (g : GitState) (rebaseOk : String → Bool) :
    Except String Unit × GitState × MergesState :=
  if st.chunks.isEmpty then (.ok (), g, st)
  else if st.use_worktrees then
    let errs := st.chunks.filterMap (fun c =>
      if rebaseOk c.branch then none
      else some (c.branch ++ ": rebase failed"))
    let g' := { g with trace := g.trace
      ++ (st.chunks.filterMap (fun c =>
            if rebaseOk c.branch then some (GitOp.fetchRebase c.branch)
            else none)) }
    if errs.isEmpty then (.ok (), g', st)
    else
      (.error ("Some chunks failed to rebase:\n" ++ String.intercalate "\n" errs),
       g', st)
  else
    let current := g.current
    match seqSync rebaseOk st.chunks g with
    | (.error e, g1) => (.error e, g1, st)
    | (.ok (), g1) =>
      match checkout g1 current with
      | .error e => (.error e, g1, st)
      | .ok g2 => (.ok (), g2, st)

/-! ## Consistency checker (src/doctor.rs, duplicate-file check) -/

/-- Check 4 of `doctor.rs::run`: report every file that has already been
seen in an earlier chunk (or earlier in the same chunk). -/
def duplicateFileIssues (chunks : List Chunk) : List String :=
  (chunks.foldl (fun (acc : List String × List String) c =>
    c.files.foldl (fun (acc : List String × List String) f =>
      if f ∈ acc.2 then
        (acc.1 ++ ["File '" ++ f ++ "' appears in multiple chunks"], acc.2)
      else
        (acc.1, acc.2 ++ [f])) acc) ([], [])).1

/-- Invariant 1 of the data model: no file path is a member of two
chunks' file lists (nor listed twice in one chunk). -/
def filesDisjoint (chunks : List Chunk) : Prop :=
  (chunks.flatMap (fun c => c.files)).Nodup

instance : DecidablePred filesDisjoint := fun chunks =>
  (List.nodupDecidable (chunks.flatMap (fun c => c.files)))

/-! ## Lemmas about the grouping planner -/

theorem isEmpty_false_of_ne_nil {α : Type} {l : List α} (h : l ≠ []) :
    l.isEmpty = false := by
  cases l with
  | nil => exact absurd rfl h
  | cons a t => rfl

theorem insertStr_perm (s : String) (l : List String) :
    List.Perm (insertStr s l) (s :: l) := by
  induction l with
  | nil => rfl
  | cons t ts ih =>
    rw [insertStr]
    split
    · rfl
    · exact (ih.cons t).trans (List.Perm.swap s t ts)

theorem sortStrings_perm (l : List String) : List.Perm (sortStrings l) l := by
  induction l with
  | nil => rfl
  | cons s ss ih =>
    rw [sortStrings]
    exact (insertStr_perm s (sortStrings ss)).trans (ih.cons s)

theorem mem_sortStrings {a : String} {l : List String} :
    a ∈ sortStrings l ↔ a ∈ l :=
  (sortStrings_perm l).mem_iff

theorem mem_insertStr {a s : String} {l : List String} :
    a ∈ insertStr s l ↔ a = s ∨ a ∈ l := by
  rw [(insertStr_perm s l).mem_iff, List.mem_cons]

theorem insertStr_sorted (s : String) (l : List String)
    (h : l.Sorted (fun a b : String => a ≤ b)) :
    (insertStr s l).Sorted (fun a b : String => a ≤ b) := by
  induction l with
  | nil => simp [insertStr]
  | cons t ts ih =>
    rw [insertStr]
    split
    · rename_i hle
      have hst : s ≤ t := String.le_iff_toList_le.mpr hle
      refine List.Pairwise.cons ?_ h
      intro b hb
      rcases List.mem_cons.mp hb with hb | hb
      · exact hb ▸ hst
      · exact le_trans hst (List.rel_of_pairwise_cons h hb)
    · rename_i hgt
      have hts : t ≤ s := by
        have : ¬ s ≤ t := fun hc => hgt (String.le_iff_toList_le.mp hc)
        exact le_of_not_le this
      refine List.Pairwise.cons ?_ (ih (List.Pairwise.sublist (List.sublist_cons_self t ts) h))
      intro b hb
      rcases mem_insertStr.mp hb with hb | hb
      · exact hb ▸ hts
      · exact List.rel_of_pairwise_cons h hb

theorem sortStrings_sorted (l : List String) :
    (sortStrings l).Sorted (fun a b : String => a ≤ b) := by
  induction l with
  | nil => simp [sortStrings]
  | cons s ss ih => exact insertStr_sorted s (sortStrings ss) ih

theorem auto_group_files_eq (files : List String) (h : files ≠ []) :
    auto_group_files files =
      (sortStrings
          ((files.map (fun f => grouping_key f (useSecondLevel files))).dedup)).map
        (fun k =>
          { name := k
            files := sortStrings
              (files.filter
                (fun f => grouping_key f (useSecondLevel files) == k)) }) := by
  rw [auto_group_files, isEmpty_false_of_ne_nil h]
  rfl

theorem mem_auto_group (files : List String) (f : String) (hf : f ∈ files) :
    ∃ p ∈ auto_group_files files,
      p.name = grouping_key f (useSecondLevel files) ∧ f ∈ p.files := by
  have hne : files ≠ [] := by
    intro h
    rw [h] at hf
    cases hf
  rw [auto_group_files_eq files hne]
  have hkmem : grouping_key f (useSecondLevel files) ∈
      sortStrings
        ((files.map (fun f' => grouping_key f' (useSecondLevel files))).dedup) := by
    rw [mem_sortStrings, List.mem_dedup]
    exact List.mem_map_of_mem _ hf
  refine ⟨_, List.mem_map_of_mem _ hkmem, rfl, ?_⟩
  rw [mem_sortStrings, List.mem_filter]
  exact ⟨hf, by simp⟩

theorem auto_group_keys_sorted (files : List String) :
    (sortStrings
      ((files.map (fun f => grouping_key f (useSecondLevel files))).dedup)).Sorted
      (· < ·) := by
  have h1 := sortStrings_sorted
    ((files.map (fun f => grouping_key f (useSecondLevel files))).dedup)
  have h2 : (sortStrings
      ((files.map (fun f => grouping_key f (useSecondLevel files))).dedup)).Nodup :=
    (sortStrings_perm _).symm.nodup (List.nodup_dedup _)
  exact (h1.and h2).imp (fun h => lt_of_le_of_ne h.1 h.2)

theorem auto_group_contains_eq (files : List String) (f : String)
    (hf : f ∈ files) (k : String) :
    ((sortStrings
        (files.filter
          (fun f' => grouping_key f' (useSecondLevel files) == k))).contains f)
      = (k == grouping_key f (useSecondLevel files)) := by
  rw [Bool.eq_iff_iff]
  constructor
  · intro h
    have hmem : f ∈ sortStrings
        (files.filter (fun f' => grouping_key f' (useSecondLevel files) == k)) :=
      List.elem_iff.mp h
    rw [mem_sortStrings, List.mem_filter] at hmem
    have h2 := hmem.2
    simp only [beq_iff_eq] at h2 ⊢
    exact h2.symm
  · intro h
    simp only [beq_iff_eq] at h
    apply List.elem_iff.mpr
    rw [mem_sortStrings, List.mem_filter]
    exact ⟨hf, by simp [h]⟩

theorem auto_group_countP_one (files : List String) (f : String)
    (hf : f ∈ files) :
    (auto_group_files files).countP (fun p => p.files.contains f) = 1 := by
  have hne : files ≠ [] := by
    intro h
    rw [h] at hf
    cases hf
  rw [auto_group_files_eq files hne, List.countP_map]
  have hcongr : ∀ k ∈ sortStrings
      ((files.map (fun f' => grouping_key f' (useSecondLevel files))).dedup),
      (((fun p : ChunkPlan => p.files.contains f) ∘
        (fun k => ({ name := k
                     files := sortStrings
                       (files.filter (fun f' =>
                         grouping_key f' (useSecondLevel files) == k)) } :
            ChunkPlan))) k
        ↔ (k == grouping_key f (useSecondLevel files))) := by
    intro k _
    exact Bool.eq_iff_iff.mp (auto_group_contains_eq files f hf k)
  rw [List.countP_congr hcongr]
  have hmem : grouping_key f (useSecondLevel files) ∈
      sortStrings
        ((files.map (fun f' => grouping_key f' (useSecondLevel files))).dedup) := by
    rw [mem_sortStrings, List.mem_dedup]
    exact List.mem_map_of_mem _ hf
  have hnd : (sortStrings
      ((files.map (fun f' => grouping_key f' (useSecondLevel files))).dedup)).Nodup :=
    (sortStrings_perm _).symm.nodup (List.nodup_dedup _)
  exact List.count_eq_one_of_mem hnd hmem

/-- C7: on every input, `auto_group_files` emits one plan entry per
distinct group key, the entries in strictly increasing (hence duplicate
free) name order, each entry's file list sorted; every input file is a
member of exactly one entry's file list; and the output is empty iff the
input is empty. -/
theorem auto_group_output_spec (files : List String) :
    ((auto_group_files files).map (fun p => p.name)).Sorted (· < ·) ∧
    (∀ p ∈ auto_group_files files, p.files.Sorted (fun a b => a ≤ b)) ∧
    (∀ f ∈ files,
      (auto_group_files files).countP (fun p => p.files.contains f) = 1) ∧
    (auto_group_files files = [] ↔ files = []) := by
  refine ⟨?_, ?_, ?_, ?_, ?_⟩
  · by_cases hne : files = []
    · subst hne
      simp [auto_group_files]
    · rw [auto_group_files_eq files hne, List.map_map]
      have hmapid :
          List.map
            ((fun p : ChunkPlan => p.name) ∘ fun k =>
              ({ name := k
                 files := sortStrings
                   (files.filter
                     (fun f =>
                       grouping_key f (useSecondLevel files) == k)) } : ChunkPlan))
            (sortStrings
              ((files.map (fun f => grouping_key f (useSecondLevel files))).dedup))
            = sortStrings
              ((files.map (fun f => grouping_key f (useSecondLevel files))).dedup) :=
        List.map_id'' (fun _ => rfl) _
      rw [hmapid]
      exact auto_group_keys_sorted files
  · intro p hp
    by_cases hne : files = []
    · subst hne
      simp [auto_group_files] at hp
    · rw [auto_group_files_eq files hne] at hp
      obtain ⟨k, _, hk⟩ := List.mem_map.mp hp
      rw [← hk]
      exact sortStrings_sorted _
  · intro f hf
    exact auto_group_countP_one files f hf
  · intro h
    by_contra hne
    obtain ⟨f, hf⟩ := List.exists_mem_of_ne_nil files hne
    obtain ⟨p, hp, _⟩ := mem_auto_group files f hf
    rw [h] at hp
    cases hp
  · intro h
    subst h
    simp [auto_group_files]

/-- C7 witness: concrete instantiation of the membership part. -/
theorem auto_group_output_spec_witness :
    (auto_group_files ["a/x.rs", "b/y.rs"]).countP
      (fun p => p.files.contains "a/x.rs") = 1 :=
  (auto_group_output_spec ["a/x.rs", "b/y.rs"]).2.2.1 "a/x.rs" (by decide)

/-- C3 counterexample: with a single non-root top-level directory the
planner switches to second-segment grouping, yet the two-segment file
`src/main.rs` is placed in a group named `src` (its first segment), not
in `root` as the claim states. -/
theorem auto_group_two_segment_counterexample :
    useSecondLevel ["src/main.rs", "src/api/routes.rs"] = true ∧
    auto_group_files ["src/main.rs", "src/api/routes.rs"] =
      [{ name := "api", files := ["src/api/routes.rs"] },
       { name := "src", files := ["src/main.rs"] }] ∧
    ((auto_group_files ["src/main.rs", "src/api/routes.rs"]).map
      (fun p => p.name)).contains "root" = false := by
  refine ⟨by decide, by decide, by decide⟩

/-- C3 amended: every file lands in the group selected by the code's
case analysis — files with no directory component map to `root`,
two-segment files always map to their first segment, and deeper files
map to their second segment exactly when a single non-root top-level
directory exists (otherwise to their first segment). -/
theorem auto_group_placement (files : List String) (f : String)
    (_hne : files ≠ []) (hf : f ∈ files) :
    ∃ p ∈ auto_group_files files, f ∈ p.files ∧
      p.name = (match components f with
        | [] => "root"
        | [_] => "root"
        | [d, _] => d
        | d :: s :: _ :: _ => if useSecondLevel files then s else d) := by
  obtain ⟨p, hp, hname, hmem⟩ := mem_auto_group files f hf
  refine ⟨p, hp, hmem, ?_⟩
  rw [hname]
  rfl

/-- C3 witness: the concrete two-directory repository from the spec
scenario, where `frontend/server.rs` is grouped by its first segment. -/
theorem auto_group_placement_witness :
    ∃ p ∈ auto_group_files ["frontend/components/Button.tsx", "backend/server.rs"],
      "backend/server.rs" ∈ p.files ∧ p.name = "backend" :=
  auto_group_placement ["frontend/components/Button.tsx", "backend/server.rs"]
    "backend/server.rs" (by decide) (by decide)

/-! ## Lemmas about ticket-code extraction -/

theorem takeWhile_append_of_all {p : Char → Bool} (A : List Char) (x : Char)
    (r : List Char) (hA : ∀ a ∈ A, p a = true) (hx : p x = false) :
    (A ++ x :: r).takeWhile p = A ∧ (A ++ x :: r).dropWhile p = x :: r := by
  induction A with
  | nil => simp [List.takeWhile_cons, List.dropWhile_cons, hx]
  | cons a A ih =>
    have ha : p a = true := hA a (List.mem_cons_self a A)
    have ih' := ih (fun b hb => hA b (List.mem_cons_of_mem a hb))
    simp only [List.cons_append, List.takeWhile_cons, List.dropWhile_cons, ha,
      if_true, ih'.1, ih'.2]
    exact ⟨trivial, trivial⟩

theorem takeWhile_of_all {p : Char → Bool} (A : List Char)
    (hA : ∀ a ∈ A, p a = true) :
    A.takeWhile p = A ∧ A.dropWhile p = [] := by
  induction A with
  | nil => simp
  | cons a A ih =>
    have ha : p a = true := hA a (List.mem_cons_self a A)
    have ih' := ih (fun b hb => hA b (List.mem_cons_of_mem a hb))
    simp only [List.takeWhile_cons, List.dropWhile_cons, ha, if_true, ih'.1,
      ih'.2]
    exact ⟨trivial, trivial⟩

theorem ticketFromName_iff (name t : List Char) :
    ticketFromName name = some t ↔ ticketDecomp name t := by
  constructor
  · intro h
    rw [ticketFromName] at h
    by_cases hemp : (name.takeWhile (fun c => c.isUpper)).isEmpty
    · rw [if_pos hemp] at h
      cases h
    · rw [if_neg hemp] at h
      by_cases hdash : (name.dropWhile (fun c => c.isUpper)).head? ≠ some '-'
      · rw [if_pos hdash] at h
        cases h
      · rw [if_neg hdash] at h
        push_neg at hdash
        by_cases hdemp :
            ((name.dropWhile (fun c => c.isUpper)).tail.takeWhile
              (fun c => c.isDigit)).isEmpty
        · rw [if_pos hdemp] at h
          cases h
        · rw [if_neg hdemp] at h
          by_cases hterm :
              ((name.dropWhile (fun c => c.isUpper)).tail.dropWhile
                  (fun c => c.isDigit)).head? = none ∨
                ((name.dropWhile (fun c => c.isUpper)).tail.dropWhile
                  (fun c => c.isDigit)).head? = some '-' ∨
                ((name.dropWhile (fun c => c.isUpper)).tail.dropWhile
                  (fun c => c.isDigit)).head? = some '/'
          · rw [if_pos hterm] at h
            injection h with ht
            refine ⟨name.takeWhile (fun c => c.isUpper),
              (name.dropWhile (fun c => c.isUpper)).tail.takeWhile
                (fun c => c.isDigit),
              (name.dropWhile (fun c => c.isUpper)).tail.dropWhile
                (fun c => c.isDigit), ?_, ?_, ?_, ?_, ?_, ?_, ht.symm⟩
            · have h1 : name =
                  name.takeWhile (fun c => c.isUpper) ++
                    name.dropWhile (fun c => c.isUpper) :=
                (List.takeWhile_append_dropWhile _ _).symm
              have h2 : name.dropWhile (fun c => c.isUpper) =
                  '-' :: (name.dropWhile (fun c => c.isUpper)).tail := by
                cases hd : name.dropWhile (fun c => c.isUpper) with
                | nil => rw [hd] at hdash; cases hdash
                | cons c cs =>
                  rw [hd] at hdash
                  injection hdash with hc
                  rw [← hc]
                  rfl
              have h3 : (name.dropWhile (fun c => c.isUpper)).tail =
                  (name.dropWhile (fun c => c.isUpper)).tail.takeWhile
                      (fun c => c.isDigit) ++
                    (name.dropWhile (fun c => c.isUpper)).tail.dropWhile
                      (fun c => c.isDigit) :=
                (List.takeWhile_append_dropWhile _ _).symm
              rw [← h3, ← h2, ← h1]
            · intro hnil
              rw [hnil] at hemp
              exact hemp rfl
            · intro c hc
              exact List.mem_takeWhile_imp hc
            · intro hnil
              rw [hnil] at hdemp
              exact hdemp rfl
            · intro c hc
              exact List.mem_takeWhile_imp hc
            · rcases hterm with hterm | hterm | hterm
              · left
                exact List.head?_eq_none_iff.mp hterm
              · right; left
                cases hd : (name.dropWhile (fun c => c.isUpper)).tail.dropWhile
                    (fun c => c.isDigit) with
                | nil => rw [hd] at hterm; cases hterm
                | cons c cs =>
                  rw [hd] at hterm
                  injection hterm with hc
                  exact ⟨cs, by rw [hc]⟩
              · right; right
                cases hd : (name.dropWhile (fun c => c.isUpper)).tail.dropWhile
                    (fun c => c.isDigit) with
                | nil => rw [hd] at hterm; cases hterm
                | cons c cs =>
                  rw [hd] at hterm
                  injection hterm with hc
                  exact ⟨cs, by rw [hc]⟩
          · rw [if_neg hterm] at h
            cases h
  · rintro ⟨A, D, rest, heq, hA, hup, hD, hdig, hrest, ht⟩
    have hupd : ∀ a ∈ A, (fun c : Char => c.isUpper) a = true := hup
    have hdash : (fun c : Char => c.isUpper) '-' = false := by decide
    have hsplit := takeWhile_append_of_all A '-' (D ++ rest) hupd hdash
    have htake : name.takeWhile (fun c => c.isUpper) = A := by
      rw [heq]; exact hsplit.1
    have hdrop : name.dropWhile (fun c => c.isUpper) = '-' :: (D ++ rest) := by
      rw [heq]; exact hsplit.2
    have hdigd : ∀ a ∈ D, (fun c : Char => c.isDigit) a = true := hdig
    have hdsplit : (D ++ rest).takeWhile (fun c => c.isDigit) = D ∧
        (D ++ rest).dropWhile (fun c => c.isDigit) = rest := by
      rcases hrest with hrest | ⟨r, hrest⟩ | ⟨r, hrest⟩
      · subst hrest
        have := takeWhile_of_all D hdigd
        simpa using this
      · subst hrest
        exact takeWhile_append_of_all D '-' r hdigd (by decide)
      · subst hrest
        exact takeWhile_append_of_all D '/' r hdigd (by decide)
    rw [ticketFromName]
    rw [htake, hdrop]
    have hAne : A.isEmpty = false := by
      cases A with
      | nil => exact absurd rfl hA
      | cons a l => rfl
    rw [hAne]
    simp only [List.head?_cons, List.tail_cons, Bool.false_eq_true, if_false,
      ne_eq, not_true_eq_false, reduceCtorEq]
    rw [hdsplit.1, hdsplit.2]
    have hDne : D.isEmpty = false := by
      cases D with
      | nil => exact absurd rfl hD
      | cons a l => rfl
    rw [hDne]
    have hterm : rest.head? = none ∨ rest.head? = some '-' ∨
        rest.head? = some '/' := by
      rcases hrest with hrest | ⟨r, hrest⟩ | ⟨r, hrest⟩
      · subst hrest; left; rfl
      · subst hrest; right; left; rfl
      · subst hrest; right; right; rfl
    rw [if_neg (by simp), if_pos hterm, ht]

/-- C4 amended: `commit_message` (and `pr_title`, which delegates to it)
prefixes the body with the ticket code if and only if the final
`/`-separated segment of the source branch decomposes as uppercase
letters, `-`, digits, followed by nothing, `-`, or `/`; and the
per-chunk commit message `apply_plan` writes —
`feat(<slug>): chunk <n> - <name>`, a blank line, `Files:` and the
chunk's file list — always starts with `feat(` and never begins with an
uppercase ticket code, so it carries no ticket prefix. -/
theorem commit_message_ticket_spec (branch body : List Char) :
    (∀ t, ticketDecomp (lastSegment branch) t →
      commit_message branch body = t ++ ' ' :: body) ∧
    ((∀ t, ¬ ticketDecomp (lastSegment branch) t) →
      commit_message branch body = body) ∧
    pr_title branch body = commit_message branch body ∧
    (∀ (slug : String) (n : Nat) (name : String) (files : List String),
      (∃ r, chunkCommitMsg slug n name files = "feat(" ++ r) ∧
      ¬ specBeginsWithTicket (chunkCommitMsg slug n name files).data) := by
  refine ⟨?_, ?_, rfl, ?_⟩
  · intro t ht
    have h : ticketFromName (lastSegment branch) = some t :=
      (ticketFromName_iff (lastSegment branch) t).mpr ht
    rw [commit_message, ticketCode, h]
  · intro hnone
    rw [commit_message]
    cases hc : ticketCode branch with
    | none => rfl
    | some t =>
      rw [ticketCode] at hc
      exact absurd ((ticketFromName_iff _ t).mp hc) (hnone t)
  · intro slug n name files
    refine ⟨⟨slug ++ "): chunk " ++ toString n ++ " - " ++ name
      ++ "\n\nFiles:\n" ++ String.intercalate "\n" files, ?_⟩, ?_⟩
    · rw [chunkCommitMsg]
      simp only [String.append_assoc]
    · intro hspec
      obtain ⟨A, D, rest, heq, hAne, hup, _, _⟩ := hspec
      cases A with
      | nil => exact hAne rfl
      | cons a A' =>
        have hhead : (chunkCommitMsg slug n name files).data.head?
            = some 'f' := rfl
        rw [heq] at hhead
        simp only [List.cons_append, List.head?_cons,
          Option.some.injEq] at hhead
        have hu := hup a (List.mem_cons_self a A')
        rw [hhead] at hu
        exact absurd hu (by decide)

/-- C4 amended, witness: a ticketed last segment is prefixed. -/
theorem commit_message_ticket_spec_witness :
    commit_message ("SOL-123-fix-auth".toList) ("chunk 2 - api".toList)
      = ("SOL-123".toList ++ ' ' :: "chunk 2 - api".toList) :=
  (commit_message_ticket_spec ("SOL-123-fix-auth".toList)
    ("chunk 2 - api".toList)).1 ("SOL-123".toList)
    ⟨"SOL".toList, "123".toList, "-fix-auth".toList, by decide, by decide,
     by decide, by decide, by decide,
     Or.inr (Or.inl ⟨"fix-auth".toList, by decide⟩), by decide⟩

/-- C4 counterexample: the source branch `feature/JCLARK-97246-poc` does
not begin with an uppercase ticket code (it starts with `f`), yet
`commit_message` prefixes `JCLARK-97246` — the code inspects the last
`/`-separated segment, not the start of the branch name
(`git.rs` test `test_ticket_prefix_with_slash_namespace` pins this).
Moreover, even for a ticketed source branch, the commit `apply_plan`
records carries a `feat(...)` message without the ticket prefix. -/
theorem commit_message_prefix_counterexample :
    ticketCode ("feature/JCLARK-97246-poc".toList)
      = some ("JCLARK-97246".toList) ∧
    commit_message ("feature/JCLARK-97246-poc".toList)
        ("chunk 1 - models".toList)
      = ("JCLARK-97246 chunk 1 - models".toList) ∧
    ¬ specBeginsWithTicket ("feature/JCLARK-97246-poc".toList) ∧
    (apply_plan ["src/models/user.rs"] "base0"
      { base_branch := "main", source_branch := "JCLARK-97246-poc",
        repo_owner := "o", repo_name := "r", strategy := .stacked,
        use_worktrees := false, chunks := [] }
      [{ name := "models", files := ["src/models/user.rs"] }]
      { branches := ["JCLARK-97246-poc", "main"],
        current := "JCLARK-97246-poc", worktrees := [], trace := [] }).2.1.trace
      = [GitOp.createBranch "JCLARK-97246-poc-chunk-1-models" "base0",
         GitOp.checkoutFilesFrom "JCLARK-97246-poc" ["src/models/user.rs"],
         GitOp.commitAll
           "feat(models): chunk 1 - models\n\nFiles:\nsrc/models/user.rs",
         GitOp.checkout "JCLARK-97246-poc"] ∧
    ("feat(models): chunk 1 - models\n\nFiles:\nsrc/models/user.rs").data.take 5
      = "feat(".data := by
  refine ⟨by decide, by decide, ?_, by decide, by decide⟩
  intro hspec
  obtain ⟨A, D, rest, heq, hAne, hup, _, _⟩ := hspec
  cases A with
  | nil => exact hAne rfl
  | cons a A' =>
    have hf : ((a :: A') ++ '-' :: (D ++ rest)).head? = some 'f' := by
      rw [← heq]
      decide
    simp only [List.cons_append, List.head?_cons, Option.some.injEq] at hf
    have hu := hup a (List.mem_cons_self a A')
    rw [hf] at hu
    exact absurd hu (by decide)

/-! ## Lemmas about JSON persistence -/

/-- C9 counterexample: the bytes `MergesState::save` writes are
`serde_json::to_string_pretty` output, which does not end in a newline
(the final character is the closing brace). -/
theorem state_save_not_newline_terminated :
    ¬ ((MergesState.saveContent
      { base_branch := "main", source_branch := "feat/big-feature",
        repo_owner := "acme", repo_name := "myrepo", strategy := .stacked,
        use_worktrees := false, chunks := [] }).data.getLast?
      = some '\n') := by
  decide

set_option maxRecDepth 4096 in
/-- C9 amended: a state file omitting `pr_number`, `pr_url`, and
`use_worktrees` loads successfully with `use_worktrees = false` and both
PR fields absent, and `save` writes pretty-printed, indented, multi-line
JSON — but the output is not newline-terminated. -/
theorem state_json_compat :
    MergesState.fromJson?
        (.obj [("base_branch", .str "main"), ("source_branch", .str "feat/big"),
               ("repo_owner", .str "acme"), ("repo_name", .str "myrepo"),
               ("strategy", .str "stacked"),
               ("chunks", .arr [Json.obj
                 [("name", .str "models"), ("branch", .str "b1"),
                  ("files", .arr [.str "src/models/user.rs"])]])])
      = .ok { base_branch := "main", source_branch := "feat/big",
              repo_owner := "acme", repo_name := "myrepo",
              strategy := .stacked, use_worktrees := false,
              chunks := [{ name := "models", branch := "b1",
                           files := ["src/models/user.rs"],
                           pr_number := none, pr_url := none }] } ∧
    MergesState.saveContent
        { base_branch := "main", source_branch := "feat/big-feature",
          repo_owner := "acme", repo_name := "myrepo", strategy := .stacked,
          use_worktrees := false, chunks := [] }
      = "\x7b\n  \"base_branch\": \"main\",\n  \"source_branch\": \"feat/big-feature\",\n  \"repo_owner\": \"acme\",\n  \"repo_name\": \"myrepo\",\n  \"strategy\": \"stacked\",\n  \"use_worktrees\": false,\n  \"chunks\": []\n\x7d" ∧
    '\n' ∈ (MergesState.saveContent
        { base_branch := "main", source_branch := "feat/big-feature",
          repo_owner := "acme", repo_name := "myrepo", strategy := .stacked,
          use_worktrees := false, chunks := [] }).data ∧
    "  ".data <:+: (MergesState.saveContent
        { base_branch := "main", source_branch := "feat/big-feature",
          repo_owner := "acme", repo_name := "myrepo", strategy := .stacked,
          use_worktrees := false, chunks := [] }).data ∧
    ¬ ((MergesState.saveContent
        { base_branch := "main", source_branch := "feat/big-feature",
          repo_owner := "acme", repo_name := "myrepo", strategy := .stacked,
          use_worktrees := false, chunks := [] }).data.getLast?
      = some '\n') := by
  refine ⟨by decide, by decide, by decide, by decide, by decide⟩

/-! ## Lemmas about the repository adapter model -/

theorem createBranch_ok {g : GitState} {b s : String} {g' : GitState}
    (h : createBranch g b s = .ok g') :
    b ∉ g.branches ∧
    g' = { g with branches := b :: g.branches, current := b,
                  trace := g.trace ++ [.createBranch b s] } := by
  rw [createBranch] at h
  split at h
  · cases h
  · rename_i hmem
    injection h with h'
    exact ⟨hmem, h'.symm⟩

theorem addWorktree_ok {g : GitState} {b s : String} {g' : GitState}
    (h : addWorktree g b s = .ok g') :
    b ∉ g.branches ∧
    g' = { g with branches := b :: g.branches,
                  worktrees := b :: g.worktrees,
                  trace := g.trace ++ [.addWorktree b s] } := by
  rw [addWorktree] at h
  split at h
  · cases h
  · rename_i hmem
    injection h with h'
    exact ⟨hmem, h'.symm⟩

theorem checkout_ok {g : GitState} {b : String} {g' : GitState}
    (h : checkout g b = .ok g') :
    b ∈ g.branches ∧
    g' = { g with current := b, trace := g.trace ++ [.checkout b] } := by
  rw [checkout] at h
  split at h
  · rename_i hmem
    injection h with h'
    exact ⟨hmem, h'.symm⟩
  · cases h

theorem checkoutFilesFrom_ok {g : GitState} {s : String} {fs : List String}
    {g' : GitState} (h : checkoutFilesFrom g s fs = .ok g') :
    g'.branches = g.branches ∧ g'.worktrees = g.worktrees ∧
    g'.current = g.current := by
  rw [checkoutFilesFrom] at h
  split at h
  · injection h with h'
    rw [← h']
    exact ⟨rfl, rfl, rfl⟩
  · split at h
    · injection h with h'
      rw [← h']
      exact ⟨rfl, rfl, rfl⟩
    · cases h

theorem commitAll_ok {g : GitState} {msg : String} {hc : Bool}
    {g' : GitState} (h : commitAll g msg hc = .ok g') :
    g'.branches = g.branches ∧ g'.worktrees = g.worktrees ∧
    g'.current = g.current := by
  rw [commitAll] at h
  split at h
  · injection h with h'
    rw [← h']
    exact ⟨rfl, rfl, rfl⟩
  · cases h

theorem createStep_ok {useWT : Bool} {g : GitState} {b s : String}
    {g' : GitState} (h : createStep useWT g b s = .ok g') :
    b ∉ g.branches ∧ g'.branches = b :: g.branches ∧
    g'.worktrees = (if useWT then b :: g.worktrees else g.worktrees) ∧
    (useWT = true → g'.current = g.current) := by
  rw [createStep] at h
  cases useWT with
  | true =>
    obtain ⟨hmem, hg⟩ := addWorktree_ok h
    rw [hg]
    exact ⟨hmem, rfl, rfl, fun _ => rfl⟩
  | false =>
    obtain ⟨hmem, hg⟩ := createBranch_ok h
    rw [hg]
    exact ⟨hmem, rfl, rfl, fun hc => by cases hc⟩

theorem restoreStep_ok {useWT : Bool} {g : GitState} {src : String}
    {g' : GitState} (h : restoreStep useWT g src = .ok g') :
    g'.branches = g.branches ∧ g'.worktrees = g.worktrees ∧
    (useWT = true → g'.current = g.current) := by
  rw [restoreStep] at h
  cases useWT with
  | true =>
    injection h with h'
    rw [← h']
    exact ⟨rfl, rfl, fun _ => rfl⟩
  | false =>
    obtain ⟨_, hg⟩ := checkout_ok h
    rw [hg]
    exact ⟨rfl, rfl, fun hc => by cases hc⟩

theorem chunkBranchName_length (source : String) (n : Nat) (name : String) :
    source.length < (chunkBranchName source n name).length := by
  have h1 : ("-chunk-" : String).length = 7 := by decide
  have h2 : ("-" : String).length = 1 := by decide
  rw [chunkBranchName]
  simp only [String.length_append, h1, h2]
  omega

theorem applyChunks_error_inv (useWT : Bool) (source baseSha : String) :
    ∀ (plan : List ChunkPlan) (n : Nat) (g : GitState) (created : List String)
      (acc : List Chunk) (e : String) (g' : GitState)
      (created' : List String),
      applyChunks useWT source baseSha plan n g created acc
        = (.error e, g', created') →
      ∃ nb : List String,
        created' = created ++ nb ∧
        g'.branches = nb.reverse ++ g.branches ∧
        g'.worktrees
          = (if useWT then nb.reverse ++ g.worktrees else g.worktrees) ∧
        (useWT = true → g'.current = g.current) ∧
        nb.Nodup ∧
        (∀ b ∈ nb, b ∉ g.branches ∧ source.length < b.length) := by
  intro plan
  induction plan with
  | nil =>
    intro n g created acc e g' created' h
    rw [applyChunks] at h
    simp at h
  | cons cp rest ih =>
    intro n g created acc e g' created' h
    rw [applyChunks] at h
    cases h1 : createStep useWT g (chunkBranchName source n cp.name) baseSha with
    | error e1 =>
      rw [h1] at h
      dsimp only at h
      simp only [Prod.mk.injEq, Except.error.injEq] at h
      obtain ⟨rfl, rfl, rfl⟩ := h
      refine ⟨[], by simp, by simp, by cases useWT <;> simp, fun _ => rfl,
        List.nodup_nil, by simp⟩
    | ok g1 =>
      rw [h1] at h
      dsimp only at h
      obtain ⟨hBmem, hBbr, hBwt, hBcur⟩ := createStep_ok h1
      cases h2 : checkoutFilesFrom g1 source cp.files with
      | error e2 =>
        rw [h2] at h
        dsimp only at h
        simp only [Prod.mk.injEq, Except.error.injEq] at h
        obtain ⟨rfl, rfl, rfl⟩ := h
        refine ⟨[chunkBranchName source n cp.name], rfl, ?_, ?_, ?_, ?_, ?_⟩
        · simpa using hBbr
        · cases useWT <;> simpa using hBwt
        · intro hwt
          exact hBcur hwt
        · simp
        · intro b hb
          rw [List.mem_singleton] at hb
          subst hb
          exact ⟨hBmem, chunkBranchName_length source n cp.name⟩
      | ok g2 =>
        rw [h2] at h
        dsimp only at h
        obtain ⟨hCbr, hCwt, hCcur⟩ := checkoutFilesFrom_ok h2
        cases h3 : commitAll g2
            (chunkCommitMsg (slugify cp.name) n cp.name cp.files)
            (!cp.files.isEmpty) with
        | error e3 =>
          rw [h3] at h
          dsimp only at h
          simp only [Prod.mk.injEq, Except.error.injEq] at h
          obtain ⟨rfl, rfl, rfl⟩ := h
          refine ⟨[chunkBranchName source n cp.name], rfl, ?_, ?_, ?_, ?_, ?_⟩
          · rw [hCbr]
            simpa using hBbr
          · rw [hCwt]
            cases useWT <;> simpa using hBwt
          · intro hwt
            rw [hCcur]
            exact hBcur hwt
          · simp
          · intro b hb
            rw [List.mem_singleton] at hb
            subst hb
            exact ⟨hBmem, chunkBranchName_length source n cp.name⟩
        | ok g3 =>
          rw [h3] at h
          dsimp only at h
          obtain ⟨hDbr, hDwt, hDcur⟩ := commitAll_ok h3
          cases h4 : restoreStep useWT g3 source with
          | error e4 =>
            rw [h4] at h
            dsimp only at h
            simp only [Prod.mk.injEq, Except.error.injEq] at h
            obtain ⟨rfl, rfl, rfl⟩ := h
            refine ⟨[chunkBranchName source n cp.name], rfl, ?_, ?_, ?_, ?_, ?_⟩
            · rw [hDbr, hCbr]
              simpa using hBbr
            · rw [hDwt, hCwt]
              cases useWT <;> simpa using hBwt
            · intro hwt
              rw [hDcur, hCcur]
              exact hBcur hwt
            · simp
            · intro b hb
              rw [List.mem_singleton] at hb
              subst hb
              exact ⟨hBmem, chunkBranchName_length source n cp.name⟩
          | ok g4 =>
            rw [h4] at h
            dsimp only at h
            obtain ⟨hEbr, hEwt, hEcur⟩ := restoreStep_ok h4
            obtain ⟨nb', hcr, hbr, hwt, hcur, hnd, hmem⟩ := ih _ _ _ _ _ _ _ h
            have hg4br : g4.branches
                = chunkBranchName source n cp.name :: g.branches := by
              rw [hEbr, hDbr, hCbr, hBbr]
            have hg4wt : g4.worktrees = (if useWT then
                chunkBranchName source n cp.name :: g.worktrees
              else g.worktrees) := by
              rw [hEwt, hDwt, hCwt, hBwt]
            refine ⟨chunkBranchName source n cp.name :: nb', ?_, ?_, ?_, ?_,
              ?_, ?_⟩
            · rw [hcr, List.append_assoc]
              rfl
            · rw [hbr, hg4br, List.reverse_cons, List.append_assoc]
              rfl
            · cases hwtc : useWT with
              | true =>
                rw [hwt, hg4wt]
                simp only [hwtc, if_true, List.reverse_cons, List.append_assoc]
                rfl
              | false =>
                rw [hwt, hg4wt]
                simp only [hwtc, Bool.false_eq_true, if_false]
            · intro hwtc
              rw [hcur hwtc, hEcur hwtc, hDcur, hCcur]
              exact hBcur hwtc
            · refine List.Pairwise.cons ?_ hnd
              intro b hb hcontra
              rw [← hcontra] at hb
              have hbg4 := (hmem _ hb).1
              rw [hg4br] at hbg4
              exact hbg4 (List.mem_cons_self _ _)
            · intro b hb
              rcases List.mem_cons.mp hb with hb | hb
              · subst hb
                exact ⟨hBmem, chunkBranchName_length source n cp.name⟩
              · have h5 := hmem b hb
                refine ⟨?_, h5.2⟩
                intro hbg
                exact h5.1 (by rw [hg4br]; exact List.mem_cons_of_mem _ hbg)

theorem rollbackStep_eq (useWT : Bool) (g : GitState) (b : String)
    (tl B0 W0 : List String)
    (hbr : g.branches = tl.reverse ++ b :: B0)
    (hwt : g.worktrees = (if useWT then tl.reverse ++ b :: W0 else W0))
    (hnb : b ∉ tl) (_hnB : b ∉ B0) (hnW : b ∉ W0) (hcur : b ≠ g.current) :
    (rollbackStep useWT g b).branches = tl.reverse ++ B0 ∧
    (rollbackStep useWT g b).worktrees
      = (if useWT then tl.reverse ++ W0 else W0) ∧
    (rollbackStep useWT g b).current = g.current := by
  have hnrev : b ∉ tl.reverse := fun hc => hnb (List.mem_reverse.mp hc)
  have herase : (tl.reverse ++ b :: B0).erase b = tl.reverse ++ B0 := by
    rw [List.erase_append_right _ hnrev, List.erase_cons_head]
  cases useWT with
  | false =>
    rw [rollbackStep]
    simp only [Bool.false_eq_true, if_false]
    have hdel : deleteBranch g b
        = .ok { g with branches := g.branches.erase b,
                       trace := g.trace ++ [.deleteBranch b] } := by
      rw [deleteBranch, if_pos]
      refine ⟨?_, fun hc => hcur hc, ?_⟩
      · rw [hbr]
        exact List.mem_append_right _ (List.mem_cons_self _ _)
      · rw [hwt]
        exact hnW
    rw [hdel]
    simp only [bestEffort]
    refine ⟨?_, ?_, ?_⟩
    · show g.branches.erase b = tl.reverse ++ B0
      rw [hbr]
      exact herase
    · show g.worktrees = W0
      simpa using hwt
    · trivial
  | true =>
    rw [rollbackStep]
    simp only [if_true]
    have hweraseq : (tl.reverse ++ b :: W0).erase b = tl.reverse ++ W0 := by
      rw [List.erase_append_right _ hnrev, List.erase_cons_head]
    have hrm : removeWorktree g b
        = .ok { g with worktrees := g.worktrees.erase b,
                       trace := g.trace ++ [.removeWorktree b] } := by
      rw [removeWorktree, if_pos]
      rw [hwt]
      simp only [if_true]
      exact List.mem_append_right _ (List.mem_cons_self _ _)
    rw [hrm]
    simp only [bestEffort]
    have hdel : deleteBranch
        { g with worktrees := g.worktrees.erase b,
                 trace := g.trace ++ [.removeWorktree b] } b
        = .ok { g with worktrees := g.worktrees.erase b,
                       branches := g.branches.erase b,
                       trace := g.trace ++ [.removeWorktree b]
                         ++ [.deleteBranch b] } := by
      rw [deleteBranch, if_pos]
      refine ⟨?_, fun hc => hcur hc, ?_⟩
      · show b ∈ g.branches
        rw [hbr]
        exact List.mem_append_right _ (List.mem_cons_self _ _)
      · show b ∉ g.worktrees.erase b
        rw [hwt]
        simp only [if_true]
        rw [hweraseq]
        intro hc
        rcases List.mem_append.mp hc with hc | hc
        · exact hnrev hc
        · exact hnW hc
    rw [hdel]
    simp only [bestEffort]
    refine ⟨?_, ?_, ?_⟩
    · show g.branches.erase b = tl.reverse ++ B0
      rw [hbr]
      exact herase
    · show g.worktrees.erase b = tl.reverse ++ W0
      rw [hwt]
      simp only [if_true]
      exact hweraseq
    · trivial

theorem rollbackFold_inv (useWT : Bool) :
    ∀ (l : List String) (g : GitState) (B0 W0 : List String),
      g.branches = l.reverse ++ B0 →
      g.worktrees = (if useWT then l.reverse ++ W0 else W0) →
      l.Nodup →
      (∀ b ∈ l, b ∉ B0) → (∀ b ∈ l, b ∉ W0) → (∀ b ∈ l, b ≠ g.current) →
      (List.foldl (rollbackStep useWT) g l).branches = B0 ∧
      (List.foldl (rollbackStep useWT) g l).worktrees = W0 ∧
      (List.foldl (rollbackStep useWT) g l).current = g.current := by
  intro l
  induction l with
  | nil =>
    intro g B0 W0 hbr hwt _ _ _ _
    refine ⟨by simpa using hbr, ?_, rfl⟩
    cases useWT with
    | false => simpa using hwt
    | true => simpa using hwt
  | cons b tl ih =>
    intro g B0 W0 hbr hwt hnd hnB hnW hcur
    rw [List.foldl_cons]
    have hbr' : g.branches = tl.reverse ++ b :: B0 := by
      rw [hbr, List.reverse_cons, List.append_assoc]
      rfl
    have hwt' : g.worktrees = (if useWT then tl.reverse ++ b :: W0 else W0) := by
      rw [hwt]
      cases useWT with
      | false => rfl
      | true =>
        simp only [if_true, List.reverse_cons, List.append_assoc]
        rfl
    have hnb : b ∉ tl := by
      intro hc
      exact (List.rel_of_pairwise_cons hnd hc) rfl
    obtain ⟨hsb, hsw, hsc⟩ := rollbackStep_eq useWT g b tl B0 W0 hbr' hwt' hnb
      (hnB b (List.mem_cons_self _ _)) (hnW b (List.mem_cons_self _ _))
      (hcur b (List.mem_cons_self _ _))
    have ihr := ih (rollbackStep useWT g b) B0 W0 hsb hsw
      (List.Pairwise.sublist (List.sublist_cons_self b tl) hnd)
      (fun b' hb' => hnB b' (List.mem_cons_of_mem _ hb'))
      (fun b' hb' => hnW b' (List.mem_cons_of_mem _ hb'))
      (fun b' hb' => by
        rw [hsc]
        exact hcur b' (List.mem_cons_of_mem _ hb'))
    exact ⟨ihr.1, ihr.2.1, by rw [ihr.2.2, hsc]⟩

/-- C1: when `apply_plan` fails after its upfront validation passed
(for instance because a later chunk's target branch name collides with a
pre-existing branch), every branch and worktree created during the
invocation is removed again, the shared working tree ends up back on the
source branch (shared-tree mode), and the persisted state is returned
untouched — while the original error is surfaced (the rollback arm
returns the loop's error, ignoring cleanup failures). -/
theorem apply_plan_rollback_on_failure
    (changed : List String) (baseSha : String) (st : MergesState)
    (plan : List ChunkPlan) (g : GitState) (e : String)
    (hsrc : st.source_branch ∈ g.branches)
    (hcur : g.current ∈ g.branches)
    (hwtsub : ∀ w ∈ g.worktrees, w ∈ g.branches)
    (hne : plan ≠ [])
    (hval : firstInvalidFile changed plan = none)
    (hres : (apply_plan changed baseSha st plan g).1 = .error e) :
    (apply_plan changed baseSha st plan g).2.1.branches = g.branches ∧
    (apply_plan changed baseSha st plan g).2.1.worktrees = g.worktrees ∧
    (apply_plan changed baseSha st plan g).2.2 = st ∧
    (st.use_worktrees = false →
      (apply_plan changed baseSha st plan g).2.1.current = st.source_branch) := by
  have hie : plan.isEmpty = false := isEmpty_false_of_ne_nil hne
  cases hAC : applyChunks st.use_worktrees st.source_branch baseSha plan
      (st.chunks.length + 1) g [] [] with
  | mk res grest =>
    cases grest with
    | mk g1 created =>
      have happ : apply_plan changed baseSha st plan g
          = (match (res, g1, created) with
             | (.ok newChunks, g', _) =>
               (.ok (), g', { st with chunks := st.chunks ++ newChunks })
             | (.error e, g', created) =>
               (.error e,
                rollbackCreated st.use_worktrees st.source_branch created g',
                st)) := by
        rw [apply_plan, hie, hval]
        simp only [Bool.false_eq_true, if_false]
        rw [hAC]
      cases res with
      | ok newChunks =>
        rw [happ] at hres
        cases hres
      | error e' =>
        obtain ⟨nb, hcr, hbr, hwt, hcurg, hnd, hmem⟩ :=
          applyChunks_error_inv st.use_worktrees st.source_branch baseSha
            plan (st.chunks.length + 1) g [] [] e' g1 created hAC
        obtain rfl : created = nb := by simpa using hcr
        rw [happ]
        dsimp only
        rw [rollbackCreated]
        cases hwtc : st.use_worktrees with
        | false =>
          have hsrc1 : st.source_branch ∈ g1.branches := by
            rw [hbr]
            exact List.mem_append_right _ hsrc
          have hchk : checkout g1 st.source_branch
              = .ok { g1 with current := st.source_branch,
                              trace := g1.trace
                                ++ [.checkout st.source_branch] } := by
            rw [checkout, if_pos hsrc1]
          rw [hwtc] at hwt
          simp only [Bool.false_eq_true, if_false] at hwt ⊢
          rw [hchk]
          simp only [bestEffort]
          have hfold := rollbackFold_inv false created
            { g1 with current := st.source_branch,
                      trace := g1.trace ++ [.checkout st.source_branch] }
            g.branches g.worktrees (by simpa using hbr) (by simpa using hwt)
            hnd (fun b hb => (hmem b hb).1)
            (fun b hb hc => (hmem b hb).1 (hwtsub b hc))
            (fun b hb hc => by
              have hlen := (hmem b hb).2
              rw [hc] at hlen
              exact lt_irrefl _ hlen)
          exact ⟨hfold.1, hfold.2.1, by trivial, fun _ => hfold.2.2⟩
        | true =>
          rw [hwtc] at hwt hcurg
          simp only [if_true] at hwt ⊢
          have hfold := rollbackFold_inv true created g1 g.branches g.worktrees
            hbr hwt hnd (fun b hb => (hmem b hb).1)
            (fun b hb hc => (hmem b hb).1 (hwtsub b hc))
            (fun b hb hc => by
              have hb1 := (hmem b hb).1
              rw [hc, hcurg rfl] at hb1
              exact hb1 hcur)
          refine ⟨hfold.1, hfold.2.1, by trivial, fun hc => by cases hc⟩


/-- C1 witness: a concrete two-chunk plan whose second target branch
already exists; the first created branch is rolled back, the tree is
back on `feat/big`, and the state is untouched. -/
theorem apply_plan_rollback_witness :
    (apply_plan ["src/a.rs", "src/b.rs"] "base0"
      { base_branch := "main", source_branch := "feat/big",
        repo_owner := "acme", repo_name := "myrepo", strategy := .stacked,
        use_worktrees := false, chunks := [] }
      [{ name := "first", files := ["src/a.rs"] },
       { name := "second", files := ["src/b.rs"] }]
      { branches := ["feat/big-chunk-2-second", "feat/big", "main"],
        current := "feat/big", worktrees := [], trace := [] }).2.1.branches
      = ["feat/big-chunk-2-second", "feat/big", "main"] ∧
    (apply_plan ["src/a.rs", "src/b.rs"] "base0"
      { base_branch := "main", source_branch := "feat/big",
        repo_owner := "acme", repo_name := "myrepo", strategy := .stacked,
        use_worktrees := false, chunks := [] }
      [{ name := "first", files := ["src/a.rs"] },
       { name := "second", files := ["src/b.rs"] }]
      { branches := ["feat/big-chunk-2-second", "feat/big", "main"],
        current := "feat/big", worktrees := [], trace := [] }).2.1.current
      = "feat/big" :=
  have h := apply_plan_rollback_on_failure ["src/a.rs", "src/b.rs"] "base0"
    { base_branch := "main", source_branch := "feat/big",
      repo_owner := "acme", repo_name := "myrepo", strategy := .stacked,
      use_worktrees := false, chunks := [] }
    [{ name := "first", files := ["src/a.rs"] },
     { name := "second", files := ["src/b.rs"] }]
    { branches := ["feat/big-chunk-2-second", "feat/big", "main"],
      current := "feat/big", worktrees := [], trace := [] }
    "Failed to create branch 'feat/big-chunk-2-second'"
    (by decide) (by decide) (by decide) (by decide) (by decide) (by decide)
  ⟨h.1, h.2.2.2 rfl⟩

/-- C2: counter to the claim and to the repository's own tests
(`tests/split_noninteractive.rs`, the three `rejects_duplicate` tests),
`apply_plan` performs no duplicate-file validation: a plan naming a file
that is already in an existing chunk is accepted, the call succeeds, and
the persisted state afterwards has `src/models/user.rs` in two chunks —
the very corruption the consistency checker's duplicate scan then
reports. -/
theorem apply_plan_accepts_duplicate_file :
    (apply_plan ["src/models/user.rs"] "base0"
      { base_branch := "main", source_branch := "feat/big",
        repo_owner := "acme", repo_name := "myrepo", strategy := .stacked,
        use_worktrees := false,
        chunks := [{ name := "first", branch := "feat/big-chunk-1-first",
                     files := ["src/models/user.rs"] }] }
      [{ name := "second", files := ["src/models/user.rs"] }]
      { branches := ["feat/big-chunk-1-first", "feat/big", "main"],
        current := "feat/big", worktrees := [], trace := [] }).1 = .ok () ∧
    ¬ filesDisjoint (apply_plan ["src/models/user.rs"] "base0"
      { base_branch := "main", source_branch := "feat/big",
        repo_owner := "acme", repo_name := "myrepo", strategy := .stacked,
        use_worktrees := false,
        chunks := [{ name := "first", branch := "feat/big-chunk-1-first",
                     files := ["src/models/user.rs"] }] }
      [{ name := "second", files := ["src/models/user.rs"] }]
      { branches := ["feat/big-chunk-1-first", "feat/big", "main"],
        current := "feat/big", worktrees := [], trace := [] }).2.2.chunks ∧
    duplicateFileIssues (apply_plan ["src/models/user.rs"] "base0"
      { base_branch := "main", source_branch := "feat/big",
        repo_owner := "acme", repo_name := "myrepo", strategy := .stacked,
        use_worktrees := false,
        chunks := [{ name := "first", branch := "feat/big-chunk-1-first",
                     files := ["src/models/user.rs"] }] }
      [{ name := "second", files := ["src/models/user.rs"] }]
      { branches := ["feat/big-chunk-1-first", "feat/big", "main"],
        current := "feat/big", worktrees := [], trace := [] }).2.2.chunks
      = ["File 'src/models/user.rs' appears in multiple chunks"] := by
  refine ⟨by decide, by decide, by decide⟩

/-! ## Lemmas about the chunk mutator -/

theorem modifyIdx_length (l : List Chunk) (i : Nat) (f : Chunk → Chunk) :
    (modifyIdx l i f).length = l.length := by
  induction l generalizing i with
  | nil => rfl
  | cons c rest ih =>
    cases i with
    | zero => rfl
    | succ j =>
      rw [modifyIdx]
      show (modifyIdx rest j f).length + 1 = rest.length + 1
      rw [ih j]

theorem modifyIdx_getD_same (l : List Chunk) (i : Nat) (f : Chunk → Chunk)
    (h : i < l.length) :
    (modifyIdx l i f).getD i default = f (l.getD i default) := by
  induction l generalizing i with
  | nil => cases h
  | cons c rest ih =>
    cases i with
    | zero => rfl
    | succ j =>
      rw [modifyIdx]
      exact ih j (Nat.lt_of_succ_lt_succ h)

theorem modifyIdx_getD_ne (l : List Chunk) (i j : Nat) (f : Chunk → Chunk)
    (h : i ≠ j) :
    (modifyIdx l i f).getD j default = l.getD j default := by
  induction l generalizing i j with
  | nil => rfl
  | cons c rest ih =>
    cases i with
    | zero =>
      cases j with
      | zero => exact absurd rfl h
      | succ j' => rfl
    | succ i' =>
      cases j with
      | zero => rfl
      | succ j' =>
        rw [modifyIdx]
        exact ih i' j' (fun hc => h (by rw [hc]))

theorem findIdx?_some_pred {l : List Chunk} {p : Chunk → Bool} {i : Nat}
    (h : l.findIdx? p = some i) :
    i < l.length ∧ p (l.getD i default) = true := by
  induction l generalizing i with
  | nil => cases h
  | cons c rest ih =>
    rw [List.findIdx?_cons] at h
    by_cases hp : p c
    · rw [if_pos hp] at h
      injection h with h'
      subst h'
      exact ⟨Nat.succ_pos _, hp⟩
    · rw [if_neg hp] at h
      rw [List.findIdx?_start_succ] at h
      cases hfind : rest.findIdx? p with
      | none =>
        rw [hfind] at h
        cases h
      | some k =>
        rw [hfind] at h
        simp only [Option.map_some', Option.some.injEq] at h
        subst h
        obtain ⟨hlt, hpk⟩ := ih hfind
        refine ⟨by simp only [List.length_cons]; omega, ?_⟩
        show p (rest.getD k default) = true
        exact hpk


/-- C5: `move_run` fails when either named chunk is missing or the file
is not a member of the source chunk (in the `FileNotInChunk` case — and
in the missing-chunk cases — before any git mutation and without
touching the state); on a valid call (both chunks found, distinct, the
needed branches present, the destination holding at most one copy of the
file) it succeeds, removes the file from the source chunk's list and
leaves it exactly once in the destination chunk's list. -/
theorem move_run_spec (st : MergesState) (file fromChunk toChunk : String)
    (g : GitState) :
    (st.chunks.findIdx? (fun c => c.name == fromChunk) = none →
      (move_run st file fromChunk toChunk g).1
          = .error ("No chunk named '" ++ fromChunk ++ "'") ∧
      (move_run st file fromChunk toChunk g).2.1 = g ∧
      (move_run st file fromChunk toChunk g).2.2 = st) ∧
    (∀ fi, st.chunks.findIdx? (fun c => c.name == fromChunk) = some fi →
      file ∉ (st.chunks.getD fi default).files →
      (move_run st file fromChunk toChunk g).1
          = .error ("File '" ++ file ++ "' is not in chunk '"
              ++ fromChunk ++ "'") ∧
      (move_run st file fromChunk toChunk g).2.1 = g ∧
      (move_run st file fromChunk toChunk g).2.2 = st) ∧
    (∀ fi, st.chunks.findIdx? (fun c => c.name == fromChunk) = some fi →
      file ∈ (st.chunks.getD fi default).files →
      st.chunks.findIdx? (fun c => c.name == toChunk) = none →
      (move_run st file fromChunk toChunk g).1
          = .error ("No chunk named '" ++ toChunk ++ "'") ∧
      (move_run st file fromChunk toChunk g).2.1 = g ∧
      (move_run st file fromChunk toChunk g).2.2 = st) ∧
    (∀ fi ti, st.chunks.findIdx? (fun c => c.name == fromChunk) = some fi →
      st.chunks.findIdx? (fun c => c.name == toChunk) = some ti →
      file ∈ (st.chunks.getD fi default).files →
      fromChunk ≠ toChunk →
      (st.chunks.getD fi default).branch ∈ g.branches →
      (st.chunks.getD ti default).branch ∈ g.branches →
      st.source_branch ∈ g.branches →
      (st.chunks.getD ti default).files.count file ≤ 1 →
      (move_run st file fromChunk toChunk g).1 = .ok () ∧
      file ∉ ((move_run st file fromChunk toChunk g).2.2.chunks.getD fi
        default).files ∧
      ((move_run st file fromChunk toChunk g).2.2.chunks.getD ti
        default).files.count file = 1) := by
  refine ⟨?_, ?_, ?_, ?_⟩
  · intro h
    have hmr : move_run st file fromChunk toChunk g
        = (.error ("No chunk named '" ++ fromChunk ++ "'"), g, st) := by
      rw [move_run, h]
    rw [hmr]
    exact ⟨rfl, rfl, rfl⟩
  · intro fi hfi hnot
    have hmr : move_run st file fromChunk toChunk g
        = (.error ("File '" ++ file ++ "' is not in chunk '"
            ++ fromChunk ++ "'"), g, st) := by
      rw [move_run, hfi]
      dsimp only
      rw [if_pos hnot]
    rw [hmr]
    exact ⟨rfl, rfl, rfl⟩
  · intro fi hfi hmem hti
    have hmr : move_run st file fromChunk toChunk g
        = (.error ("No chunk named '" ++ toChunk ++ "'"), g, st) := by
      rw [move_run, hfi]
      dsimp only
      rw [if_neg (not_not_intro hmem), hti]
    rw [hmr]
    exact ⟨rfl, rfl, rfl⟩
  · intro fi ti hfi hti hmem hnames hfb htb hsrc hcount
    obtain ⟨hfilt, hfname⟩ := findIdx?_some_pred hfi
    obtain ⟨htilt, htname⟩ := findIdx?_some_pred hti
    have hfieq : (st.chunks.getD fi default).name = fromChunk := by
      simpa using hfname
    have htieq : (st.chunks.getD ti default).name = toChunk := by
      simpa using htname
    have hne : fi ≠ ti := by
      intro hc
      apply hnames
      rw [← hfieq, ← htieq, hc]
    rw [move_run, hfi]
    dsimp only
    rw [if_neg (not_not_intro hmem), hti]
    dsimp only
    have hchk1 : checkout g (st.chunks.getD fi default).branch
        = .ok { g with current := (st.chunks.getD fi default).branch,
                       trace := g.trace
                         ++ [.checkout (st.chunks.getD fi default).branch] } := by
      rw [checkout, if_pos hfb]
    rw [hchk1]
    dsimp only
    rw [removeFileFromBranch]
    have hchk2 : checkout
        { g with current := (st.chunks.getD fi default).branch,
                 trace := (g.trace
                     ++ [.checkout (st.chunks.getD fi default).branch])
                   ++ [.resetSoft, .resetFile file, .discardFile file,
                       .commitRemaining] }
        (st.chunks.getD ti default).branch
        = .ok { g with current := (st.chunks.getD ti default).branch,
                       trace := ((g.trace
                           ++ [.checkout (st.chunks.getD fi default).branch])
                         ++ [.resetSoft, .resetFile file, .discardFile file,
                             .commitRemaining])
                         ++ [.checkout (st.chunks.getD ti default).branch] } := by
      rw [checkout, if_pos htb]
    rw [hchk2]
    dsimp only
    have hGetTi : (modifyIdx st.chunks fi
        (fun c => { c with files := c.files.filter (fun f => f ≠ file) })).getD
          ti default = st.chunks.getD ti default :=
      modifyIdx_getD_ne st.chunks fi ti _ hne
    rw [hGetTi]
    have hGetFi : (modifyIdx st.chunks fi
        (fun c => { c with files := c.files.filter (fun f => f ≠ file) })).getD
          fi default
        = { st.chunks.getD fi default with
            files := (st.chunks.getD fi default).files.filter
              (fun f => f ≠ file) } :=
      modifyIdx_getD_same st.chunks fi _ hfilt
    have hnotfilt : file ∉ ((st.chunks.getD fi default).files.filter
        (fun f => f ≠ file)) := by
      intro hc
      have h2 := List.of_mem_filter hc
      simp at h2
    by_cases hcont : ((st.chunks.getD ti default).files.contains file) = true
    · rw [if_pos hcont, if_pos hcont]
      dsimp only
      have hmemti : file ∈ (st.chunks.getD ti default).files :=
        List.elem_iff.mp hcont
      have hc1 : 0 < (st.chunks.getD ti default).files.count file :=
        List.count_pos_iff.mpr hmemti
      have hchk3 : checkout
          { g with current := (st.chunks.getD ti default).branch,
                   trace := ((g.trace
                       ++ [.checkout (st.chunks.getD fi default).branch])
                     ++ [.resetSoft, .resetFile file, .discardFile file,
                         .commitRemaining])
                     ++ [.checkout (st.chunks.getD ti default).branch] }
          st.source_branch
          = .ok { g with current := st.source_branch,
                         trace := (((g.trace
                             ++ [.checkout (st.chunks.getD fi default).branch])
                           ++ [.resetSoft, .resetFile file, .discardFile file,
                               .commitRemaining])
                           ++ [.checkout (st.chunks.getD ti default).branch])
                           ++ [.checkout st.source_branch] } := by
        rw [checkout, if_pos hsrc]
      rw [hchk3]
      dsimp only
      refine ⟨rfl, ?_, ?_⟩
      · rw [hGetFi]
        exact hnotfilt
      · rw [hGetTi]
        exact le_antisymm hcount hc1
    · rw [if_neg hcont, if_neg hcont]
      have hcf : checkoutFilesFrom
          { g with current := (st.chunks.getD ti default).branch,
                   trace := ((g.trace
                       ++ [.checkout (st.chunks.getD fi default).branch])
                     ++ [.resetSoft, .resetFile file, .discardFile file,
                         .commitRemaining])
                     ++ [.checkout (st.chunks.getD ti default).branch] }
          st.source_branch [file]
          = .ok { g with current := (st.chunks.getD ti default).branch,
                         trace := (((g.trace
                             ++ [.checkout (st.chunks.getD fi default).branch])
                           ++ [.resetSoft, .resetFile file, .discardFile file,
                               .commitRemaining])
                           ++ [.checkout (st.chunks.getD ti default).branch])
                           ++ [.checkoutFilesFrom st.source_branch [file]] } := by
        rw [checkoutFilesFrom, if_neg (by simp), if_pos hsrc]
      rw [hcf]
      dsimp only
      rw [amendCommitStep]
      dsimp only
      have hchk3 : checkout
          { g with current := (st.chunks.getD ti default).branch,
                   trace := ((((g.trace
                       ++ [.checkout (st.chunks.getD fi default).branch])
                     ++ [.resetSoft, .resetFile file, .discardFile file,
                         .commitRemaining])
                     ++ [.checkout (st.chunks.getD ti default).branch])
                     ++ [.checkoutFilesFrom st.source_branch [file]])
                     ++ [.stageAll, .amendCommit] }
          st.source_branch
          = .ok { g with current := st.source_branch,
                         trace := (((((g.trace
                             ++ [.checkout (st.chunks.getD fi default).branch])
                           ++ [.resetSoft, .resetFile file, .discardFile file,
                               .commitRemaining])
                           ++ [.checkout (st.chunks.getD ti default).branch])
                           ++ [.checkoutFilesFrom st.source_branch [file]])
                           ++ [.stageAll, .amendCommit])
                           ++ [.checkout st.source_branch] } := by
        rw [checkout, if_pos hsrc]
      rw [hchk3]
      dsimp only
      have hnotmemti : file ∉ (st.chunks.getD ti default).files := by
        intro hc
        exact hcont (List.elem_iff.mpr hc)
      have htilt1 : ti < (modifyIdx st.chunks fi
          (fun c => { c with files := c.files.filter (fun f => f ≠ file) })).length := by
        rw [modifyIdx_length]
        exact htilt
      have hGetTi2 : (modifyIdx (modifyIdx st.chunks fi
          (fun c => { c with files := c.files.filter (fun f => f ≠ file) })) ti
          (fun c => { c with files := c.files ++ [file] })).getD ti default
          = { st.chunks.getD ti default with
              files := (st.chunks.getD ti default).files ++ [file] } := by
        rw [modifyIdx_getD_same _ _ _ htilt1, hGetTi]
      have hGetFi2 : (modifyIdx (modifyIdx st.chunks fi
          (fun c => { c with files := c.files.filter (fun f => f ≠ file) })) ti
          (fun c => { c with files := c.files ++ [file] })).getD fi default
          = { st.chunks.getD fi default with
              files := (st.chunks.getD fi default).files.filter
                (fun f => f ≠ file) } := by
        rw [modifyIdx_getD_ne _ ti fi _ (fun hc => hne hc.symm), hGetFi]
      refine ⟨rfl, ?_, ?_⟩
      · rw [hGetFi2]
        exact hnotfilt
      · rw [hGetTi2]
        dsimp only
        rw [List.count_append]
        have hzero : (st.chunks.getD ti default).files.count file = 0 :=
          List.count_eq_zero.mpr hnotmemti
        rw [hzero]
        simp

/-- C5 witness: the spec scenario — moving `src/b.rs` from `chunk-a`
(files `a.rs`, `b.rs`) to `chunk-b` (files `c.rs`) succeeds, removes it
from `chunk-a`'s list, and leaves it once in `chunk-b`'s list. -/
theorem move_run_spec_witness :
    (move_run
      { base_branch := "main", source_branch := "feat/big",
        repo_owner := "acme", repo_name := "myrepo", strategy := .stacked,
        use_worktrees := false,
        chunks := [{ name := "chunk-a", branch := "feat/big-chunk-1-chunk-a",
                     files := ["src/a.rs", "src/b.rs"] },
                   { name := "chunk-b", branch := "feat/big-chunk-2-chunk-b",
                     files := ["src/c.rs"] }] }
      "src/b.rs" "chunk-a" "chunk-b"
      { branches := ["feat/big-chunk-1-chunk-a", "feat/big-chunk-2-chunk-b",
                     "feat/big", "main"],
        current := "feat/big", worktrees := [], trace := [] }).1 = .ok () ∧
    "src/b.rs" ∉ ((move_run
      { base_branch := "main", source_branch := "feat/big",
        repo_owner := "acme", repo_name := "myrepo", strategy := .stacked,
        use_worktrees := false,
        chunks := [{ name := "chunk-a", branch := "feat/big-chunk-1-chunk-a",
                     files := ["src/a.rs", "src/b.rs"] },
                   { name := "chunk-b", branch := "feat/big-chunk-2-chunk-b",
                     files := ["src/c.rs"] }] }
      "src/b.rs" "chunk-a" "chunk-b"
      { branches := ["feat/big-chunk-1-chunk-a", "feat/big-chunk-2-chunk-b",
                     "feat/big", "main"],
        current := "feat/big", worktrees := [],
        trace := [] }).2.2.chunks.getD 0 default).files ∧
    ((move_run
      { base_branch := "main", source_branch := "feat/big",
        repo_owner := "acme", repo_name := "myrepo", strategy := .stacked,
        use_worktrees := false,
        chunks := [{ name := "chunk-a", branch := "feat/big-chunk-1-chunk-a",
                     files := ["src/a.rs", "src/b.rs"] },
                   { name := "chunk-b", branch := "feat/big-chunk-2-chunk-b",
                     files := ["src/c.rs"] }] }
      "src/b.rs" "chunk-a" "chunk-b"
      { branches := ["feat/big-chunk-1-chunk-a", "feat/big-chunk-2-chunk-b",
                     "feat/big", "main"],
        current := "feat/big", worktrees := [],
        trace := [] }).2.2.chunks.getD 1 default).files.count "src/b.rs" = 1 :=
  (move_run_spec
    { base_branch := "main", source_branch := "feat/big",
      repo_owner := "acme", repo_name := "myrepo", strategy := .stacked,
      use_worktrees := false,
      chunks := [{ name := "chunk-a", branch := "feat/big-chunk-1-chunk-a",
                   files := ["src/a.rs", "src/b.rs"] },
                 { name := "chunk-b", branch := "feat/big-chunk-2-chunk-b",
                   files := ["src/c.rs"] }] }
    "src/b.rs" "chunk-a" "chunk-b"
    { branches := ["feat/big-chunk-1-chunk-a", "feat/big-chunk-2-chunk-b",
                   "feat/big", "main"],
      current := "feat/big", worktrees := [], trace := [] }).2.2.2 0 1
    (by decide) (by decide) (by decide) (by decide) (by decide) (by decide)
    (by decide) (by decide)

/-! ## Lemmas about add and sync -/

/-- C6 amended: `add_run` on an existing chunk with a *non-empty* file
list whose members are all still in the diff against base and all
already present in the chunk is a successful no-op — it issues no git
command (the git state, trace included, is returned unchanged) and
leaves the persisted state untouched. -/
theorem add_run_idempotent_noop (changed : List String) (st : MergesState)
    (chunkName : String) (files : List String) (g : GitState) (i : Nat)
    (hi : st.chunks.findIdx? (fun c => c.name == chunkName) = some i)
    (hne : files ≠ [])
    (hdiff : ∀ f ∈ files, changed.contains f = true)
    (hin : ∀ f ∈ files, f ∈ (st.chunks.getD i default).files) :
    add_run changed st chunkName files g = (.ok (), g, st) := by
  rw [add_run, hi]
  dsimp only
  rw [isEmpty_false_of_ne_nil hne]
  simp only [Bool.false_eq_true, if_false]
  have hfind : files.find? (fun f => !(changed.contains f)) = none := by
    rw [List.find?_eq_none]
    intro f hf
    simpa using hdiff f hf
  rw [hfind]
  dsimp only
  have hfilter : files.filter
      (fun f => !((st.chunks.getD i default).files.contains f)) = [] := by
    rw [List.filter_eq_nil_iff]
    intro f hf
    simpa [List.getD_eq_getElem?_getD] using hin f hf
  rw [hfilter]
  rfl

/-- C6 witness: re-adding a file already in the chunk is accepted and
changes nothing. -/
theorem add_run_idempotent_noop_witness :
    add_run ["src/a.rs", "src/b.rs"]
      { base_branch := "main", source_branch := "feat/big",
        repo_owner := "acme", repo_name := "myrepo", strategy := .stacked,
        use_worktrees := false,
        chunks := [{ name := "part-a", branch := "feat/big-chunk-1-part-a",
                     files := ["src/a.rs"] }] }
      "part-a" ["src/a.rs"]
      { branches := ["feat/big-chunk-1-part-a", "feat/big", "main"],
        current := "feat/big", worktrees := [], trace := [] }
    = (.ok (),
       { branches := ["feat/big-chunk-1-part-a", "feat/big", "main"],
         current := "feat/big", worktrees := [], trace := [] },
       { base_branch := "main", source_branch := "feat/big",
         repo_owner := "acme", repo_name := "myrepo", strategy := .stacked,
         use_worktrees := false,
         chunks := [{ name := "part-a", branch := "feat/big-chunk-1-part-a",
                      files := ["src/a.rs"] }] }) :=
  add_run_idempotent_noop ["src/a.rs", "src/b.rs"]
    { base_branch := "main", source_branch := "feat/big",
      repo_owner := "acme", repo_name := "myrepo", strategy := .stacked,
      use_worktrees := false,
      chunks := [{ name := "part-a", branch := "feat/big-chunk-1-part-a",
                   files := ["src/a.rs"] }] }
    "part-a" ["src/a.rs"]
    { branches := ["feat/big-chunk-1-part-a", "feat/big", "main"],
      current := "feat/big", worktrees := [], trace := [] }
    0 (by decide) (by decide) (by decide) (by decide)

/-- C6 counterexample: an empty file list — all of whose members are
vacuously already in the chunk — is rejected with `No files provided.`
rather than succeeding as a no-op. -/
theorem add_run_empty_files_counterexample :
    (add_run ["src/a.rs"]
      { base_branch := "main", source_branch := "feat/big",
        repo_owner := "acme", repo_name := "myrepo", strategy := .stacked,
        use_worktrees := false,
        chunks := [{ name := "part-a", branch := "feat/big-chunk-1-part-a",
                     files := ["src/a.rs"] }] }
      "part-a" []
      { branches := ["feat/big-chunk-1-part-a", "feat/big", "main"],
        current := "feat/big", worktrees := [], trace := [] }).1
      = .error "No files provided." := by
  decide

/-- C8: `sync_run` never writes the state file — in every topology and
for every outcome of the per-chunk rebases, the persisted state returned
is exactly the input state (only branch tips move; there is no
partial-success commit to state). -/
theorem sync_run_never_saves_state (st : MergesState) (g : GitState)
    (rebaseOk : String → Bool) :
    (sync_run st g rebaseOk).2.2 = st := by
  rw [sync_run]
  split
  · rfl
  · split
    · dsimp only
      split
      · rfl
      · rfl
    · cases hseq : seqSync rebaseOk st.chunks g with
      | mk r g1 =>
        cases r with
        | error e => rfl
        | ok u =>
          cases u
          dsimp only
          cases hchk : checkout g1 g.current with
          | error e => rfl
          | ok g2 => rfl

theorem seqSync_ok_all (rebaseOk : String → Bool) :
    ∀ (chunks : List Chunk) (g : GitState),
      (∀ c ∈ chunks, c.branch ∈ g.branches) →
      (∀ c ∈ chunks, rebaseOk c.branch = true) →
      (seqSync rebaseOk chunks g).1 = .ok () ∧
      (seqSync rebaseOk chunks g).2.branches = g.branches := by
  intro chunks
  induction chunks with
  | nil =>
    intro g _ _
    exact ⟨rfl, rfl⟩
  | cons c rest ih =>
    intro g hbr hreb
    rw [seqSync]
    have hchk : checkout g c.branch
        = .ok { g with current := c.branch,
                       trace := g.trace ++ [.checkout c.branch] } := by
      rw [checkout, if_pos (hbr c (List.mem_cons_self _ _))]
    rw [hchk]
    dsimp only
    rw [if_pos (hreb c (List.mem_cons_self _ _))]
    exact ih _ (fun c' hc' => hbr c' (List.mem_cons_of_mem _ hc'))
      (fun c' hc' => hreb c' (List.mem_cons_of_mem _ hc'))

/-- C10: in shared-tree mode, when every chunk branch exists and every
rebase succeeds, `sync_run` succeeds and leaves the repository checked
out on whatever branch was current when the call began — not
necessarily the source branch. -/
theorem sync_run_restores_current (st : MergesState) (g : GitState)
    (rebaseOk : String → Bool)
    (hwt : st.use_worktrees = false)
    (hbr : ∀ c ∈ st.chunks, c.branch ∈ g.branches)
    (hreb : ∀ c ∈ st.chunks, rebaseOk c.branch = true)
    (hcur : g.current ∈ g.branches) :
    (sync_run st g rebaseOk).1 = .ok () ∧
    (sync_run st g rebaseOk).2.1.current = g.current := by
  rw [sync_run]
  by_cases hemp : st.chunks.isEmpty = true
  · rw [if_pos hemp]
    exact ⟨rfl, rfl⟩
  · rw [if_neg hemp, hwt]
    simp only [Bool.false_eq_true, if_false]
    cases hseq : seqSync rebaseOk st.chunks g with
    | mk r g1 =>
      have hok := seqSync_ok_all rebaseOk st.chunks g hbr hreb
      rw [hseq] at hok
      cases r with
      | error e => exact absurd hok.1 (by simp)
      | ok u =>
        cases u
        dsimp only
        have hcur1 : g.current ∈ g1.branches := by
          have hb := hok.2
          dsimp only at hb
          rw [hb]
          exact hcur
        have hchk : checkout g1 g.current
            = .ok { g1 with current := g.current,
                            trace := g1.trace ++ [.checkout g.current] } := by
          rw [checkout, if_pos hcur1]
        rw [hchk]
        exact ⟨rfl, rfl⟩

/-- C10 witness: syncing from a branch other than the source branch
returns to it afterwards. -/
theorem sync_run_restores_current_witness :
    (sync_run
      { base_branch := "main", source_branch := "feat/big",
        repo_owner := "acme", repo_name := "myrepo", strategy := .stacked,
        use_worktrees := false,
        chunks := [{ name := "part-a", branch := "feat/big-chunk-1-part-a",
                     files := ["src/a.rs"] }] }
      { branches := ["feat/big-chunk-1-part-a", "feat/big", "other", "main"],
        current := "other", worktrees := [], trace := [] }
      (fun _ => true)).1 = .ok () ∧
    (sync_run
      { base_branch := "main", source_branch := "feat/big",
        repo_owner := "acme", repo_name := "myrepo", strategy := .stacked,
        use_worktrees := false,
        chunks := [{ name := "part-a", branch := "feat/big-chunk-1-part-a",
                     files := ["src/a.rs"] }] }
      { branches := ["feat/big-chunk-1-part-a", "feat/big", "other", "main"],
        current := "other", worktrees := [], trace := [] }
      (fun _ => true)).2.1.current = "other" :=
  sync_run_restores_current
    { base_branch := "main", source_branch := "feat/big",
      repo_owner := "acme", repo_name := "myrepo", strategy := .stacked,
      use_worktrees := false,
      chunks := [{ name := "part-a", branch := "feat/big-chunk-1-part-a",
                   files := ["src/a.rs"] }] }
    { branches := ["feat/big-chunk-1-part-a", "feat/big", "other", "main"],
      current := "other", worktrees := [], trace := [] }
    (fun _ => true) rfl (by decide) (fun _ _ => rfl) (by decide)

end Merges
